import Mathlib

/-!
Shallow embedding of `torch/csrc/jit/passes/onnx/function_substitution.cpp`
(the ONNX function-call substitution pass) and proofs about it.

The IR collaborators (graph / block / node / value stores, scope stack on a
graph, the generic inliner) are not part of the translated source file; they
are modelled from the specification's interface contracts (spec §3, §6).
Definitions whose doc comment starts with "Modelled from the spec:" are those
collaborator models.  Everything else is a direct translation of the C++ in
`function_substitution.cpp`.
-/

set_option maxHeartbeats 1000000

/-! ## Identifiers -/

abbrev ValueId := Nat
abbrev NodeId := Nat
abbrev BlockId := Nat
abbrev GraphId := Nat
abbrev FuncId := Nat

/-! ## String helpers (std::string operations used by the pass) -/

/-- `charsStartWith p s` is true when `p` is an initial segment of `s`
(character-list version of a C++ substring probe at position 0). -/
def charsStartWith : List Char → List Char → Bool
  | [], _ => true
  | _ :: _, [] => false
  | p :: ps, c :: cs => p == c && charsStartWith ps cs

/-- `charsHaveSub pat s` is true when `pat` occurs contiguously in `s`. -/
def charsHaveSub (pat : List Char) : List Char → Bool
  | [] => charsStartWith pat []
  | c :: cs => charsStartWith pat (c :: cs) || charsHaveSub pat cs

/-- `strContains s pat`: the C++ test `s.find(pat) != std::string::npos`. -/
def strContains (s pat : String) : Bool :=
  charsHaveSub pat.toList s.toList

/-- Join a list of segments with `"."` (no leading/trailing dot); the string
produced by the accumulation loop of `TidyClassNameFromTorchScript` on
non-empty segments, and the rendering `c10::QualifiedName` keeps for its
atoms. -/
def joinDot : List String → String
  | [] => ""
  | x :: xs => xs.foldl (fun acc s => acc ++ "." ++ s) x

/-- Modelled from the spec: a qualified name is "a dotted sequence of name
segments describing a class's origin" (spec §3); `atoms` is that sequence. -/
structure QualifiedName where
  atoms : List String
deriving DecidableEq, Repr

/-- Modelled from the spec: the full dotted rendering of a qualified name
(`c10::QualifiedName::qualifiedName()`, the atoms joined with `"."`). -/
def QualifiedName.qualifiedName (q : QualifiedName) : String :=
  joinDot q.atoms

/-! ## Types (the slice of the JIT type system the pass consults, spec §3/§6) -/

/-- Modelled from the spec: static types of IR values.  The pass only
distinguishes class types (with an optional qualified name and a method
table), function types (pointing at a function), and everything else
(spec §3 "Value ... carries a static type (may be a user-defined class type,
a function type, or a primitive/tensor type)"). -/
inductive IRType where
  | classType (name : Option QualifiedName) (methods : List (String × FuncId))
  | functionType (fn : FuncId)
  | otherType
deriving DecidableEq, Repr

/-! ## IR stores -/

/-- The scope stack is modelled as the list of pushed scope names, root first.
`[]` is the blank root scope (`Scope::isBlank`); pushing appends. -/
abbrev ScopePath := List String

/-- Modelled from the spec: an instruction (spec §3): kind tag, input and
output values, the string-valued "name" attribute when present, the scope
annotation, nested blocks, and the block that owns it. -/
structure Node where
  kind : String
  inputs : List ValueId
  outputs : List ValueId
  attrName : Option String
  scope : ScopePath
  subBlocks : List BlockId
  owningBlock : BlockId
deriving DecidableEq, Repr

/-- Modelled from the spec: an SSA value record: its static type and the
instruction producing it (spec §3 "produced by exactly one Instruction"). -/
structure ValueRec where
  type : IRType
  producer : NodeId
deriving DecidableEq, Repr

/-- Modelled from the spec: a block: its owning graph, its instruction list in
insertion order, and the values it returns (spec §3). -/
structure BlockRec where
  owningGraph : GraphId
  nodes : List NodeId
  returns : List ValueId
deriving DecidableEq, Repr

/-- Modelled from the spec: a graph: its top-level block, its input values and
its ambient current scope (spec §3 "owns an ambient current scope pointer"). -/
structure Graph where
  blockId : BlockId
  inputs : List ValueId
  currentScope : ScopePath
deriving DecidableEq, Repr

/-- Modelled from the spec: a function representation: its qualified name and
its graph body when it has an inspectable one (spec §6 "conversion of an
abstract function representation to one with an inspectable graph body (may
fail)"). -/
structure Function where
  qualname : QualifiedName
  graphId : Option GraphId
deriving DecidableEq, Repr

/-- Modelled from the spec: the whole in-memory IR universe the pass mutates:
stores for graphs, blocks, nodes and values, plus a fresh-id counter used
when the pass creates instructions and values. -/
structure IRState where
  graphs : List (GraphId × Graph)
  blocks : List (BlockId × BlockRec)
  nodes : List (NodeId × Node)
  values : List (ValueId × ValueRec)
  funcs : List (FuncId × Function)
  fresh : Nat
deriving DecidableEq, Repr

/-! ## Association-list store primitives -/

/-- First-match association lookup. -/
def alook {α : Type} (l : List (Nat × α)) (k : Nat) : Option α :=
  match l with
  | [] => none
  | p :: ps => if p.1 = k then some p.2 else alook ps k

/-- First-match association lookup with string keys (method tables). -/
def alookStr {α : Type} (l : List (String × α)) (k : String) : Option α :=
  match l with
  | [] => none
  | p :: ps => if p.1 = k then some p.2 else alookStr ps k

/-- In-place update of every entry with the given key. -/
def aupdate {α : Type} (l : List (Nat × α)) (k : Nat) (f : α → α) : List (Nat × α) :=
  l.map fun p => if p.1 = k then (p.1, f p.2) else p

theorem aupdate_cons {α : Type} (p : Nat × α) (ps : List (Nat × α)) (k : Nat)
    (f : α → α) :
    aupdate (p :: ps) k f =
      (if p.1 = k then (p.1, f p.2) else p) :: aupdate ps k f := rfl

theorem alook_aupdate_eq {α : Type} (l : List (Nat × α)) (k : Nat) (f : α → α) :
    alook (aupdate l k f) k = (alook l k).map f := by
  induction l with
  | nil => rfl
  | cons p ps ih =>
    rw [aupdate_cons]
    by_cases h : p.1 = k
    · simp [alook, h]
    · simp [alook, h]
      exact ih

theorem alook_aupdate_ne {α : Type} (l : List (Nat × α)) (k j : Nat) (f : α → α)
    (h : j ≠ k) : alook (aupdate l k f) j = alook l j := by
  induction l with
  | nil => rfl
  | cons p ps ih =>
    rw [aupdate_cons]
    have hkj : ¬ k = j := fun hh => h hh.symm
    by_cases hp : p.1 = k
    · have hpj : ¬ p.1 = j := by rw [hp]; exact hkj
      simp [alook, hp, hpj, hkj]
      exact ih
    · by_cases hj : p.1 = j
      · simp [alook, hp, hj, h]
      · simp [alook, hp, hj]
        exact ih

/-! ## Store getters (with inert defaults for ids absent from a store) -/

def defaultNode : Node :=
  { kind := "", inputs := [], outputs := [], attrName := none,
    scope := [], subBlocks := [], owningBlock := 0 }

def defaultBlock : BlockRec :=
  { owningGraph := 0, nodes := [], returns := [] }

def defaultGraph : Graph :=
  { blockId := 0, inputs := [], currentScope := [] }

def defaultValue : ValueRec :=
  { type := IRType.otherType, producer := 0 }

def defaultFunc : Function :=
  { qualname := ⟨[]⟩, graphId := none }

def getNode (st : IRState) (n : NodeId) : Node :=
  (alook st.nodes n).getD defaultNode

def getBlock (st : IRState) (b : BlockId) : BlockRec :=
  (alook st.blocks b).getD defaultBlock

def getGraph (st : IRState) (g : GraphId) : Graph :=
  (alook st.graphs g).getD defaultGraph

def getValue (st : IRState) (v : ValueId) : ValueRec :=
  (alook st.values v).getD defaultValue

def getFunc (st : IRState) (f : FuncId) : Function :=
  (alook st.funcs f).getD defaultFunc

/-- `value->type()`. -/
def valueType (st : IRState) (v : ValueId) : IRType :=
  (getValue st v).type

/-- `value->node()`: the producing instruction. -/
def valProducer (st : IRState) (v : ValueId) : NodeId :=
  (getValue st v).producer

/-- `graph->current_scope()` as a path of pushed scope names. -/
def getGraphScope (st : IRState) (g : GraphId) : ScopePath :=
  (getGraph st g).currentScope

/-! ## Failure modes and results

C++ exceptions (`TORCH_INTERNAL_ASSERT`, `AT_ASSERT`, `expect<...>`,
`Node::s` on a missing attribute, `ClassType::getMethod` on a missing
method, `toGraphFunction` on an opaque function, `Node::destroy` while
used) become an error value that carries the state at the moment of
failure; scope guards restore the graph scope on this path too, exactly as
C++ RAII destructors run during unwinding (spec §4.3).  `outOfFuel` marks a
computation that did not finish within the recursion budget; it is distinct
from every fatal error. -/
inductive Err where
  | outOfFuel
  | attrMissing
  | expectFailed
  | assertFailed
  | methodNotFound
  | noGraphBody
  | destroyWithUses
  | missingInput
  | inlineArity
deriving DecidableEq, Repr

/-- Result of a mutating pass step: success or a fatal error, both carrying
the resulting state (mutations made before a C++ exception persist). -/
inductive PRes where
  | ok (st : IRState)
  | fatal (e : Err) (st : IRState)
deriving DecidableEq, Repr

/-- The state carried by a result, successful or not. -/
def resState : PRes → IRState
  | .ok st => st
  | .fatal _ st => st

/-- Sequencing: a fatal error propagates (as a C++ exception does). -/
def PRes.bind (r : PRes) (f : IRState → PRes) : PRes :=
  match r with
  | .ok st => f st
  | .fatal e st => .fatal e st

/-- Result of a read-only string computation. -/
inductive VarRes where
  | ok (s : String)
  | err (e : Err)
deriving DecidableEq, Repr

/-! ## Source constants -/

def kCallFunction : String := "prim::CallFunction"
def kCallMethod : String := "prim::CallMethod"
def kConstant : String := "prim::Constant"
def kInterpolate : String := "aten::__interpolate"
def kModuleList : String := "__torch__.torch.nn.modules.container.ModuleList"

/-- `const std::string top_module_variable_name = "";` -/
def top_module_variable_name : String := ""

/-! ## TidyClassNameFromTorchScript (source lines 14-31) -/

/-- The loop body of `TidyClassNameFromTorchScript`: skip the reserved root
namespace atom and any atom containing the mangling marker, and append the
rest to `out` with a `"."` separator once `out` is non-empty. -/
def tidyFold (out : String) : List String → String
  | [] => out
  | atom :: rest =>
    let isInternalTorchAtom := atom = "__torch__"
    let isMangleAtom := strContains atom "__torch_mangle"
    if ¬ isInternalTorchAtom ∧ ¬ (isMangleAtom = true) then
      tidyFold (if out = "" then atom else out ++ "." ++ atom) rest
    else
      tidyFold out rest

/-- Translation of `TidyClassNameFromTorchScript` (source lines 14-31):
`"UNKNOWN_CLASS"` for an absent name, otherwise the dot-joined atoms with
the `"__torch__"` atom and mangled atoms filtered out. -/
def TidyClassNameFromTorchScript (class_name : Option QualifiedName) : String :=
  match class_name with
  | none => "UNKNOWN_CLASS"
  | some q => tidyFold "" q.atoms

/-- The atoms `TidyClassNameFromTorchScript` keeps. -/
def keepAtom (atom : String) : Bool :=
  ¬ (atom = "__torch__") ∧ ¬ (strContains atom "__torch_mangle" = true)

/-! ## GetCallNodeVariableName (source lines 33-65) -/

/-- Does the value's static type cast to a `ClassType` whose qualified name
is the reserved `ModuleList` container name?  (source lines 50-53) -/
def isModuleListVal (st : IRState) (v : ValueId) : Bool :=
  match valueType st v with
  | IRType.classType (some q) _ => q.qualifiedName = kModuleList
  | _ => false

/-- Translation of the `while (parent_module_value)` walk of
`GetCallNodeVariableName` (source lines 49-62), with an explicit recursion
budget: the C++ loop has no bound of its own, so `Err.outOfFuel` marks a
walk still running after `fuel` iterations.  A container node without a
"name" attribute makes `parent_module_node->s(attr::name)` fail
(`Err.attrMissing`). -/
def containerNameWalk : Nat → IRState → Option ValueId → String → VarRes
  | _, _, none, acc => .ok acc
  | 0, _, some _, _ => .err .outOfFuel
  | fuel + 1, st, some v, acc =>
    if isModuleListVal st v then
      let p := valProducer st v
      match (getNode st p).attrName with
      | none => .err .attrMissing
      | some pname =>
        let acc' := pname ++ "." ++ acc
        match (getNode st p).inputs with
        | [] => containerNameWalk fuel st none acc'
        | w :: _ => containerNameWalk fuel st (some w) acc'
    else
      .ok acc

/-- Translation of `GetCallNodeVariableName` (source lines 33-65): the
best-effort source variable name of the object being called. -/
def GetCallNodeVariableName (fuel : Nat) (st : IRState) (call_node : NodeId) : VarRes :=
  let cur := getNode st call_node
  if ¬ (cur.kind = kCallFunction ∨ cur.kind = kCallMethod) then .err .assertFailed
  else
    match cur.inputs with
    | [] => .err .missingInput
    | in0 :: _ =>
      let module_node := valProducer st in0
      match (getNode st module_node).attrName with
      | none => .ok ""
      | some module_name =>
        match (getNode st module_node).inputs with
        | [] => .ok module_name
        | w :: _ => containerNameWalk fuel st (some w) module_name

/-! ## Scope naming (collaborator from `passes/onnx/naming.cpp`, spec §4.3) -/

/-- Modelled from the spec: `ONNXScopeName::createFullScopeName` "combines
the tidied class name and resolved variable name into one opaque scope
identifier.  It is a pure naming function" (spec §4.3).  The two inputs are
kept apart by a separator. -/
def createFullScopeName (class_name variable_name : String) : String :=
  class_name ++ "::" ++ variable_name

/-- The scope-name computation of `SetScopeGuardForCall` (source lines
67-78): assert the node is a call, resolve the receiver's named type, tidy
it, resolve the variable name, and combine them. -/
def SetScopeGuardScopeName (fuel : Nat) (st : IRState) (call_node : NodeId) : VarRes :=
  let cur := getNode st call_node
  if ¬ (cur.kind = kCallFunction ∨ cur.kind = kCallMethod) then .err .assertFailed
  else
    match cur.inputs with
    | [] => .err .missingInput
    | in0 :: _ =>
      let nameOf : IRType → VarRes := fun t =>
        match t with
        | IRType.classType n _ =>
          match GetCallNodeVariableName fuel st call_node with
          | .err e => .err e
          | .ok variable_name =>
            .ok (createFullScopeName (TidyClassNameFromTorchScript n) variable_name)
        | IRType.functionType f =>
          match GetCallNodeVariableName fuel st call_node with
          | .err e => .err e
          | .ok variable_name =>
            .ok (createFullScopeName
              (TidyClassNameFromTorchScript (some (getFunc st f).qualname)) variable_name)
        | IRType.otherType => .err .expectFailed
      nameOf (valueType st in0)

/-! ## State mutation primitives (IR collaborator operations, spec §6) -/

/-- Update one node record in the store. -/
def aupdateNode (st : IRState) (n : NodeId) (f : Node → Node) : IRState :=
  { st with nodes := aupdate st.nodes n f }

/-- Update one block record in the store. -/
def aupdateBlock (st : IRState) (b : BlockId) (f : BlockRec → BlockRec) : IRState :=
  { st with blocks := aupdate st.blocks b f }

/-- Update one value record in the store. -/
def aupdateValue (st : IRState) (v : ValueId) (f : ValueRec → ValueRec) : IRState :=
  { st with values := aupdate st.values v f }

/-- Modelled from the spec: set a graph's ambient current scope
(the write the scope-stack primitive performs, spec §6). -/
def setGraphScope (st : IRState) (g : GraphId) (s : ScopePath) : IRState :=
  { st with graphs := aupdate st.graphs g fun gr => { gr with currentScope := s } }

/-- Modelled from the spec: the scoped-acquisition primitive
(`WithCurrentScope`, spec §4.3): run `act` with the graph's current scope
set to `s`, and restore the previous scope on every exit path, the fatal
one included (RAII destructors run during unwinding). -/
def withGraphScope (st : IRState) (g : GraphId) (s : ScopePath)
    (act : IRState → PRes) : PRes :=
  let saved := getGraphScope st g
  match act (setGraphScope st g s) with
  | .ok st' => .ok (setGraphScope st' g saved)
  | .fatal e st' => .fatal e (setGraphScope st' g saved)

/-- Modelled from the spec: `node->setScope` (scope stamping, spec §4.4). -/
def setNodeScope (st : IRState) (n : NodeId) (s : ScopePath) : IRState :=
  aupdateNode st n fun nd => { nd with scope := s }

/-- Modelled from the spec: `cur->removeInput(0)` ("detach and discard
input 0", spec §4.4). -/
def removeInput0 (st : IRState) (n : NodeId) : IRState :=
  aupdateNode st n fun nd => { nd with inputs := nd.inputs.tail }

/-- Modelled from the spec: `cur->removeAllInputs()`. -/
def removeAllInputs (st : IRState) (n : NodeId) : IRState :=
  aupdateNode st n fun nd => { nd with inputs := [] }

/-- Modelled from the spec: is the value consumed anywhere (a node input or a
block return)?  This is the use set of spec §3. -/
def valueUsed (st : IRState) (v : ValueId) : Bool :=
  st.nodes.any (fun p => p.2.inputs.contains v) ||
  st.blocks.any (fun p => p.2.returns.contains v)

/-- Modelled from the spec: `node->hasUses()`: some output is used. -/
def nodeHasUses (st : IRState) (n : NodeId) : Bool :=
  (getNode st n).outputs.any (valueUsed st)

/-- Remove a node from the store and unlink it from its owning block. -/
def removeNodeRaw (st : IRState) (n : NodeId) : IRState :=
  let nb := (getNode st n).owningBlock
  { st with
    nodes := st.nodes.filter fun p => ¬ p.1 = n,
    blocks := aupdate st.blocks nb fun br =>
      { br with nodes := br.nodes.filter fun x => ¬ x = n } }

/-- Modelled from the spec: `node->destroy()`: "destruction expressed as a
single operation that asserts zero referrers" (spec §9; §3 "an instruction
must not be destroyed while it still has uses"). -/
def destroyNode (st : IRState) (n : NodeId) : PRes :=
  if nodeHasUses st n then .fatal .destroyWithUses st
  else .ok (removeNodeRaw st n)

/-- Pairwise value substitution: the `i`-th old value becomes the `i`-th new
one, every other value is untouched. -/
def substVal : List ValueId → List ValueId → ValueId → ValueId
  | [], _, v => v
  | _ :: _, [], v => v
  | o :: os, n :: ns, v => if v = o then n else substVal os ns v

/-- Modelled from the spec: `cur->replaceAllUsesWith(rep)`: "redirect all
uses of an instruction's outputs to another instruction's outputs"
(spec §6) — every node input and block return naming `olds[i]` now names
`news[i]`. -/
def replaceAllUsesWith (st : IRState) (olds news : List ValueId) : IRState :=
  { st with
    nodes := st.nodes.map fun p =>
      (p.1, { p.2 with inputs := p.2.inputs.map (substVal olds news) }),
    blocks := st.blocks.map fun p =>
      (p.1, { p.2 with returns := p.2.returns.map (substVal olds news) }) }

/-- Modelled from the spec: `graph->create(kind, inputs, n_outputs)`: a fresh
instruction with fresh output values, not yet placed in a block (spec §6). -/
def createNode (st : IRState) (kind : String) (ins : List ValueId)
    (nOut : Nat) : IRState × NodeId :=
  let nid := st.fresh
  let outs := (List.range nOut).map fun i => st.fresh + 1 + i
  let nodeRec : Node :=
    { kind := kind, inputs := ins, outputs := outs, attrName := none,
      scope := [], subBlocks := [], owningBlock := 0 }
  ({ st with
      nodes := (nid, nodeRec) :: st.nodes,
      values := (outs.map fun v => (v, { type := IRType.otherType, producer := nid }))
        ++ st.values,
      fresh := st.fresh + 1 + nOut }, nid)

/-- Insert `n` right after `after` in an instruction list. -/
def insertAfterInList (l : List NodeId) (after n : NodeId) : List NodeId :=
  match l with
  | [] => []
  | x :: xs => if x = after then x :: n :: xs else x :: insertAfterInList xs after n

/-- Insert the ids `ns` (in order) right before `bef` in an instruction list. -/
def insertManyBefore (l : List NodeId) (bef : NodeId) (ns : List NodeId) : List NodeId :=
  match l with
  | [] => []
  | x :: xs => if x = bef then ns ++ x :: xs else x :: insertManyBefore xs bef ns

/-- Modelled from the spec: `new_node->insertAfter(cur)` (spec §4.4 "insert
immediately after cur"). -/
def insertAfterNode (st : IRState) (newId curId : NodeId) : IRState :=
  let b := (getNode st curId).owningBlock
  let st1 := aupdateNode st newId fun nd => { nd with owningBlock := b }
  aupdateBlock st1 b fun br => { br with nodes := insertAfterInList br.nodes curId newId }

/-- Modelled from the spec: `new->output()->copyMetadata(cur->output())`
(spec §4.4 "copy output metadata ... from cur"): the first output of `dst`
takes the static type of the first output of `src`. -/
def copyFirstOutputMetadata (st : IRState) (dst src : NodeId) : IRState :=
  match (getNode st dst).outputs.head?, (getNode st src).outputs.head? with
  | some d, some s => aupdateValue st d fun vr => { vr with type := (getValue st s).type }
  | _, _ => st

/-- Modelled from the spec: `new->copyMetadata(cur)` (spec §4.4 "copy ...
source-scope metadata from cur"). -/
def copyNodeMetadata (st : IRState) (dst src : NodeId) : IRState :=
  aupdateNode st dst fun nd => { nd with scope := (getNode st src).scope }

/-! ## The generic inliner (collaborator `inlineCallTo`, spec §4.4/§6) -/

/-- Value substitution through an association (callee value → caller value). -/
def substPairs (sub : List (ValueId × ValueId)) (v : ValueId) : ValueId :=
  (alook sub v).getD v

/-- One step of splicing: copy one callee instruction into the caller with a
fresh id and fresh output values, its inputs redirected through the
accumulated substitution; extend the substitution with its outputs. -/
def spliceOne (target : BlockId)
    (acc : IRState × List (ValueId × ValueId) × List NodeId) (cid : NodeId) :
    IRState × List (ValueId × ValueId) × List NodeId :=
  let st := acc.1
  let sub := acc.2.1
  let ids := acc.2.2
  let orig := getNode st cid
  let nid := st.fresh
  let outs := (List.range orig.outputs.length).map fun i => st.fresh + 1 + i
  let newRec : Node :=
    { orig with inputs := orig.inputs.map (substPairs sub), outputs := outs,
                owningBlock := target }
  let st' : IRState :=
    { st with
      nodes := (nid, newRec) :: st.nodes,
      values := ((outs.zip orig.outputs).map fun p =>
          (p.1, { type := (getValue st p.2).type, producer := nid })) ++ st.values,
      fresh := st.fresh + 1 + orig.outputs.length }
  (st', sub ++ orig.outputs.zip outs, ids ++ [nid])

/-- Splice copies of the callee instructions into the caller block. -/
def spliceNodes (st : IRState) (cids : List NodeId) (target : BlockId)
    (sub0 : List (ValueId × ValueId)) :
    IRState × List (ValueId × ValueId) × List NodeId :=
  cids.foldl (spliceOne target) (st, sub0, [])

/-- Modelled from the spec: `inlineCallTo(cur, fn, false)`: "splice (inline)
the callee's body at cur's position, replacing cur's outputs with the
callee's returned values and removing cur from the block" (spec §4.4);
"splicing a callee's instruction sequence directly into the caller's block,
replacing the call instruction" (glossary).  The callee's parameters stand
for the call's inputs; mismatched arities are a contract violation. -/
def inlineCallTo (st : IRState) (curId : NodeId) (calleeGid : GraphId) : PRes :=
  let cur := getNode st curId
  let g := getGraph st calleeGid
  let cb := getBlock st g.blockId
  if cur.inputs.length ≠ g.inputs.length then .fatal .inlineArity st
  else if cur.outputs.length ≠ cb.returns.length then .fatal .inlineArity st
  else
    let sub0 := g.inputs.zip cur.inputs
    let spliced := spliceNodes st cb.nodes cur.owningBlock sub0
    let st1 := spliced.1
    let rets := cb.returns.map (substPairs spliced.2.1)
    let st2 := aupdateBlock st1 cur.owningBlock fun br =>
      { br with nodes := insertManyBefore br.nodes curId spliced.2.2 }
    let st3 := replaceAllUsesWith st2 cur.outputs rets
    destroyNode st3 curId

/-- The conditional destruction idiom of the source (lines 100-103, 122-125):
`if (!input_node_0->hasUses()) { input_node_0->destroy(); }`. -/
def destroyIfUnused (st : IRState) (n : NodeId) : IRState :=
  if nodeHasUses st n then st else removeNodeRaw st n

/-- The body of the special interpolate substitution (source lines 96-118):
remove input 0 (destroying its producer when that leaves it unused), create
one aten::__interpolate instruction over the remaining inputs with the same
output arity, copy output and scope metadata, insert it after the call,
redirect every use of the call's outputs to it, and destroy the call. -/
def interpSubstitute (st : IRState) (curId input_node_0 : NodeId) : PRes :=
  let st1 := removeInput0 st curId
  let st2 := destroyIfUnused st1 input_node_0
  let created := createNode st2 kInterpolate (getNode st2 curId).inputs
    (getNode st2 curId).outputs.length
  let st3 := created.1
  let interpolate_node := created.2
  let st4 := copyFirstOutputMetadata st3 interpolate_node curId
  let st5 := insertAfterNode st4 interpolate_node curId
  let st6 := copyNodeMetadata st5 interpolate_node curId
  let st7 := replaceAllUsesWith st6 (getNode st6 curId).outputs
    (getNode st6 interpolate_node).outputs
  let st8 := removeAllInputs st7 curId
  destroyNode st8 curId

/-! ## The substitution pass driver (source lines 80-146)

`functionCallSubstitutionNode` is the body of the `switch (cur->kind())`;
`functionCallSubstitutionLoop` is the `for` loop with its capture-next-
before-mutation iterator (a worklist snapshot, skipping instructions a
previous step destroyed); `functionCallSubstitution` is the C++ function of
that name; `functionCallSubstitutionBlocks` is the `for (auto b :
cur->blocks())` recursion.  `fuel` bounds the recursion into callee bodies
and nested blocks, which the C++ performs by direct recursion (the call
graph is assumed acyclic, spec §5); running out of budget is the
distinguished non-fatal outcome `Err.outOfFuel`. -/

mutual

/-- One `switch (cur->kind())` dispatch (source lines 85-145). -/
def functionCallSubstitutionNode (fuel : Nat) (st : IRState) (bid : BlockId)
    (curId : NodeId) : PRes :=
  let graph := (getBlock st bid).owningGraph
  let cur := getNode st curId
  if cur.kind = kCallFunction then
    -- source lines 87-130
    match cur.inputs with
    | [] => .fatal .missingInput st
    | in0 :: _ =>
      let function_constant := valProducer st in0
      if ¬ ((getNode st function_constant).kind = kConstant) then .fatal .assertFailed st
      else
        let funTy :=
          match (getNode st function_constant).outputs.head? with
          | some v => valueType st v
          | none => IRType.otherType
        match funTy with
        | IRType.functionType f =>
          let q := (getFunc st f).qualname.qualifiedName
          if strContains q "torch.nn.functional" ∧ strContains q "interpolate" then
            -- special interpolate substitution, source lines 96-118
            interpSubstitute st curId (valProducer st in0)
          else
            -- generic function-call inlining, source lines 119-129
            let input_node_0 := valProducer st in0
            let st1 := removeInput0 st curId
            let st2 := destroyIfUnused st1 input_node_0
            match (getFunc st2 f).graphId with
            | none => .fatal .noGraphBody st2
            | some calleeGid =>
              match fuel with
              | 0 => .fatal .outOfFuel st2
              | fuel' + 1 =>
                (functionCallSubstitution fuel' st2 (getGraph st2 calleeGid).blockId).bind
                  fun st3 => inlineCallTo st3 curId calleeGid
        | _ => .fatal .expectFailed st
  else if cur.kind = kCallMethod then
    -- source lines 131-143
    match cur.attrName with
    | none => .fatal .attrMissing st
    | some name =>
      match cur.inputs with
      | [] => .fatal .missingInput st
      | in0 :: _ =>
        match valueType st in0 with
        | IRType.classType _ methods =>
          match alookStr methods name with
          | none => .fatal .methodNotFound st
          | some f =>
            match SetScopeGuardScopeName fuel st curId with
            | .err e => .fatal e st
            | .ok scope_name =>
              let pushed := getGraphScope st graph ++ [scope_name]
              withGraphScope st graph pushed fun stA =>
                match (getFunc stA f).graphId with
                | none => .ok stA
                | some calleeGid =>
                  withGraphScope stA calleeGid (getGraphScope stA graph) fun stB =>
                    match fuel with
                    | 0 => .fatal .outOfFuel stB
                    | fuel' + 1 =>
                      (functionCallSubstitution fuel' stB
                          (getGraph stB calleeGid).blockId).bind
                        fun stC => inlineCallTo stC curId calleeGid
        | _ => .ok st
  else
    -- default case, source lines 144-151
    let st1 :=
      if (getGraphScope st graph).isEmpty then st
      else setNodeScope st curId (getGraphScope st graph)
    if cur.subBlocks.isEmpty then .ok st1
    else
      match fuel with
      | 0 => .fatal .outOfFuel st1
      | fuel' + 1 => functionCallSubstitutionBlocks fuel' st1 cur.subBlocks
termination_by (fuel, 0, 0)

/-- The `for (auto it = block->nodes().begin() ...)` loop (source lines
82-84): the worklist is the snapshot of ids, and an id a previous step
destroyed (hence unlinked from the block) is skipped, exactly as the
pre-captured iterator never revisits an unlinked node. -/
def functionCallSubstitutionLoop (fuel : Nat) (st : IRState) (bid : BlockId)
    (wl : List NodeId) : PRes :=
  match wl with
  | [] => .ok st
  | n :: rest =>
    if (getBlock st bid).nodes.contains n then
      (functionCallSubstitutionNode fuel st bid n).bind fun st' =>
        functionCallSubstitutionLoop fuel st' bid rest
    else
      functionCallSubstitutionLoop fuel st bid rest
termination_by (fuel, 1, wl.length)

/-- `functionCallSubstitution(Block*)` (source line 80). -/
def functionCallSubstitution (fuel : Nat) (st : IRState) (bid : BlockId) : PRes :=
  functionCallSubstitutionLoop fuel st bid (getBlock st bid).nodes
termination_by (fuel, 2, 0)

/-- `for (auto b : cur->blocks()) functionCallSubstitution(b);`
(source lines 148-150). -/
def functionCallSubstitutionBlocks (fuel : Nat) (st : IRState)
    (bs : List BlockId) : PRes :=
  match bs with
  | [] => .ok st
  | b :: rest =>
    (functionCallSubstitution fuel st b).bind fun st' =>
      functionCallSubstitutionBlocks fuel st' rest
termination_by (fuel, 3, bs.length)

end

/-! ## Top-level entry (source lines 154-182) -/

/-- Translation of `ONNXGraphTopLevelScopeGuard` + `ONNXFunctionCallSubstitution`
(source lines 154-182): seed the scope stack with a root frame derived from
the graph's first input type when it is a class type, run the pass over the
top block, and restore the scope on exit. -/
def ONNXFunctionCallSubstitution (fuel : Nat) (st : IRState) (gid : GraphId) : PRes :=
  let g := getGraph st gid
  match g.inputs.head? with
  | none =>
    withGraphScope st gid (getGraphScope st gid) fun s =>
      functionCallSubstitution fuel s g.blockId
  | some v0 =>
    match valueType st v0 with
    | IRType.classType n _ =>
      withGraphScope st gid
        (getGraphScope st gid ++
          [createFullScopeName (TidyClassNameFromTorchScript n) top_module_variable_name])
        fun s => functionCallSubstitution fuel s g.blockId
    | _ =>
      withGraphScope st gid (getGraphScope st gid) fun s =>
        functionCallSubstitution fuel s g.blockId

/-! ## Lemmas about TidyClassNameFromTorchScript -/

/-- The separator-joining step once filtering is out of the way. -/
def dotStep (out atom : String) : String :=
  if out = "" then atom else out ++ "." ++ atom

theorem strApp_assoc (a b c : String) : a ++ b ++ c = a ++ (b ++ c) := by
  apply String.ext
  simp [String.data_append, List.append_assoc]

theorem strApp_empty_right (a : String) : a ++ "" = a := by
  apply String.ext
  simp [String.data_append]

theorem string_append_ne_empty (a b : String) (h : a ≠ "") : a ++ b ≠ "" := by
  intro hc
  apply h
  apply String.ext
  have hd := congrArg String.data hc
  simp only [String.data_append] at hd
  have : a.data = [] := (List.append_eq_nil.mp hd).1
  simpa using this

theorem tidyFold_filter (atoms : List String) :
    ∀ out, tidyFold out atoms = (atoms.filter keepAtom).foldl dotStep out := by
  induction atoms with
  | nil => intro out; rfl
  | cons a rest ih =>
    intro out
    by_cases h : (¬ a = "__torch__" ∧ ¬ (strContains a "__torch_mangle" = true))
    · have hk : keepAtom a = true := by
        simp [keepAtom, h.1, h.2]
      simp only [tidyFold, List.filter_cons, hk, if_pos h, List.foldl_cons]
      exact ih (dotStep out a)
    · have hk : keepAtom a = false := by
        rcases not_and_or.mp h with h2 | h2
        · simp only [not_not] at h2
          simp [keepAtom, h2]
        · simp only [not_not] at h2
          simp [keepAtom, h2]
      simp only [tidyFold, List.filter_cons, hk, if_neg h]
      exact ih out

theorem foldl_dot_append (l : List String) :
    ∀ a b : String, a ++ l.foldl (fun acc s => acc ++ "." ++ s) b =
      l.foldl (fun acc s => acc ++ "." ++ s) (a ++ b) := by
  induction l with
  | nil => intro a b; rfl
  | cons x rest ih =>
    intro a b
    simp only [List.foldl_cons]
    rw [ih, strApp_assoc a b ".", strApp_assoc a (b ++ ".") x]

theorem foldl_dotStep_of_ne_empty (l : List String) :
    ∀ out, out ≠ "" →
      l.foldl dotStep out = out ++ l.foldl (fun acc s => acc ++ "." ++ s) "" := by
  induction l with
  | nil => intro out h; exact (strApp_empty_right out).symm
  | cons a rest ih =>
    intro out h
    simp only [List.foldl_cons, dotStep, if_neg h]
    rw [ih _ (string_append_ne_empty _ _ (string_append_ne_empty _ _ h))]
    have h0 : (("" : String) ++ "." ++ a) = "." ++ a := by
      apply String.ext; simp [String.data_append]
    rw [h0, foldl_dot_append, foldl_dot_append,
      strApp_assoc out "." a, strApp_assoc out ("." ++ a),
      strApp_empty_right]

theorem foldl_dotStep_joinDot (l : List String) (hne : ∀ a ∈ l, a ≠ "") :
    l.foldl dotStep "" = joinDot l := by
  cases l with
  | nil => rfl
  | cons x rest =>
    have hx : x ≠ "" := hne x (by simp)
    have h0 : dotStep "" x = x := by simp [dotStep]
    simp only [List.foldl_cons, h0, joinDot]
    rw [foldl_dotStep_of_ne_empty rest x hx, foldl_dot_append,
      strApp_empty_right]

/-! ## Claim C6: qualified-name tidying -/

/-- C6 counterexample: the claim says the mangling-marked variant
["__torch__","pkg","M__torch_mangle_3"] tidies to "pkg.M"; the code drops
the entire segment containing the mangling marker, so it tidies to "pkg". -/
theorem C6_counterexample :
    TidyClassNameFromTorchScript (some ⟨["__torch__", "pkg", "M__torch_mangle_3"]⟩)
      = "pkg" ∧ "pkg" ≠ "pkg.M" := by
  refine ⟨by decide, by decide⟩

/-- C6 (amended): tidying an absent name gives "UNKNOWN_CLASS"; otherwise it
joins with "." exactly those segments that are neither "__torch__" nor
contain "__torch_mangle", preserving order (segments are non-empty, the
c10::QualifiedName invariant); ["__torch__","pkg","M"] tidies to "pkg.M";
the mangling-marked variant with the marker as its own segment
["__torch__","pkg","___torch_mangle_3","M"] tidies to "pkg.M" (whereas a
segment that itself contains the marker is dropped whole, see the
counterexample); a name with no reserved or mangled segments tidies to the
dot-joined original. -/
theorem C6_tidy :
    TidyClassNameFromTorchScript none = "UNKNOWN_CLASS" ∧
    (∀ atoms : List String, (∀ a ∈ atoms, a ≠ "") →
      TidyClassNameFromTorchScript (some ⟨atoms⟩) = joinDot (atoms.filter keepAtom)) ∧
    TidyClassNameFromTorchScript (some ⟨["__torch__", "pkg", "M"]⟩) = "pkg.M" ∧
    TidyClassNameFromTorchScript (some ⟨["__torch__", "pkg", "___torch_mangle_3", "M"]⟩)
      = "pkg.M" ∧
    (∀ atoms : List String, (∀ a ∈ atoms, a ≠ "") →
      (∀ a ∈ atoms, keepAtom a = true) →
      TidyClassNameFromTorchScript (some ⟨atoms⟩) = joinDot atoms) := by
  have hgen : ∀ atoms : List String, (∀ a ∈ atoms, a ≠ "") →
      TidyClassNameFromTorchScript (some ⟨atoms⟩) = joinDot (atoms.filter keepAtom) := by
    intro atoms h
    show tidyFold "" atoms = _
    rw [tidyFold_filter]
    exact foldl_dotStep_joinDot _ (fun a ha => h a (List.mem_of_mem_filter ha))
  refine ⟨rfl, hgen, by decide, by decide, ?_⟩
  intro atoms h hall
  rw [hgen atoms h, List.filter_eq_self.mpr hall]

/-- C6 witness: the general filtering clause of C6_tidy at a concrete name. -/
theorem C6_witness :
    TidyClassNameFromTorchScript (some ⟨["a", "__torch__", "b__torch_mangle_7", "c"]⟩)
      = "a.c" := by
  have h := C6_tidy.2.1 ["a", "__torch__", "b__torch_mangle_7", "c"] (by decide)
  rw [h]
  decide

/-! ## Claim C5: call-site variable resolution -/

/-- The name accumulated by the container walk: each container name in `ns`
(innermost first) is prepended with a "." separator. -/
def prependAll : List String → String → String
  | [], acc => acc
  | n :: rest, acc => prependAll rest (n ++ "." ++ acc)

/-- A successful backward container chain starting at value `v`: the list of
container names the walk reads, innermost first (spec §4.2 step 4). -/
inductive ContainerChain (st : IRState) : ValueId → List String → Prop where
  | stop (v : ValueId) :
      isModuleListVal st v = false → ContainerChain st v []
  | last (v : ValueId) (n : String) :
      isModuleListVal st v = true →
      (getNode st (valProducer st v)).attrName = some n →
      (getNode st (valProducer st v)).inputs = [] →
      ContainerChain st v [n]
  | step (v w : ValueId) (ws : List ValueId) (n : String) (ns : List String) :
      isModuleListVal st v = true →
      (getNode st (valProducer st v)).attrName = some n →
      (getNode st (valProducer st v)).inputs = w :: ws →
      ContainerChain st w ns →
      ContainerChain st v (n :: ns)

theorem containerNameWalk_chain (st : IRState) (v : ValueId) (ns : List String)
    (hc : ContainerChain st v ns) :
    ∀ fuel acc, ns.length < fuel →
      containerNameWalk fuel st (some v) acc = .ok (prependAll ns acc) := by
  induction hc with
  | stop v hml =>
    intro fuel acc hf
    match fuel, hf with
    | f + 1, _ => simp [containerNameWalk, hml, prependAll]
  | last v n hml hname hins =>
    intro fuel acc hf
    match fuel, hf with
    | f + 1, hf =>
      have hf' : 0 < f := by simpa using hf
      match f, hf' with
      | f' + 1, _ => simp [containerNameWalk, hml, hname, hins, prependAll]
  | step v w ws n ns hml hname hins _ ih =>
    intro fuel acc hf
    match fuel, hf with
    | f + 1, hf =>
      have hf' : ns.length < f := by simpa using hf
      simp only [containerNameWalk, hml, hname, hins, if_pos]
      rw [ih f (n ++ "." ++ acc) hf']
      rfl

/-- C5: the variable resolver returns "" if the producer of the call's first
input lacks a "name" attribute; returns that producer's name as-is if the
producer has no inputs; and otherwise walks backward through values whose
static type is the reserved ModuleList container class type, prepending each
container's name and a "." separator in order; concretely, a call on element
"3" of a container named "layers" resolves to "layers.3". -/
theorem C5_variable_resolution (fuel : Nat) (st : IRState) (c : NodeId)
    (hkind : (getNode st c).kind = kCallFunction ∨ (getNode st c).kind = kCallMethod)
    (in0 : ValueId) (ins : List ValueId)
    (hins : (getNode st c).inputs = in0 :: ins) :
    ((getNode st (valProducer st in0)).attrName = none →
      GetCallNodeVariableName fuel st c = .ok "") ∧
    (∀ m : String, (getNode st (valProducer st in0)).attrName = some m →
      (getNode st (valProducer st in0)).inputs = [] →
      GetCallNodeVariableName fuel st c = .ok m) ∧
    (∀ (m : String) (w : ValueId) (ws : List ValueId) (ns : List String),
      (getNode st (valProducer st in0)).attrName = some m →
      (getNode st (valProducer st in0)).inputs = w :: ws →
      ContainerChain st w ns → ns.length < fuel →
      GetCallNodeVariableName fuel st c = .ok (prependAll ns m)) := by
  refine ⟨?_, ?_, ?_⟩
  · intro hattr
    simp [GetCallNodeVariableName, hkind, hins, hattr]
  · intro m hattr hnone
    simp [GetCallNodeVariableName, hkind, hins, hattr, hnone]
  · intro m w ws ns hattr hcons hchain hfuel
    simp only [GetCallNodeVariableName, hins, hattr, hcons]
    rw [if_neg (not_not.mpr hkind)]
    exact containerNameWalk_chain st w ns hchain fuel m hfuel

/-- A small state realizing the "layers.3" resolution example: node 3 calls a
method on value 10, produced by node 1 (named "3") whose first input 11 is a
ModuleList produced by node 2 (named "layers") with no inputs. -/
def stLayers : IRState :=
  { graphs := [], blocks := [], funcs := [],
    nodes := [ (1, { kind := "prim::GetAttr", inputs := [11], outputs := [10],
                     attrName := some "3", scope := [], subBlocks := [], owningBlock := 0 }),
               (2, { kind := "prim::GetAttr", inputs := [], outputs := [11],
                     attrName := some "layers", scope := [], subBlocks := [], owningBlock := 0 }),
               (3, { kind := "prim::CallMethod", inputs := [10], outputs := [12],
                     attrName := some "forward", scope := [], subBlocks := [], owningBlock := 0 }) ],
    values := [ (10, { type := IRType.classType (some ⟨["__torch__", "pkg", "Sub"]⟩) [],
                       producer := 1 }),
                (11, { type := IRType.classType
                        (some ⟨["__torch__", "torch", "nn", "modules", "container", "ModuleList"]⟩) [],
                       producer := 2 }),
                (12, { type := IRType.otherType, producer := 3 }) ],
    fresh := 100 }

/-- C5 witness: the container-walk clause of C5_variable_resolution resolves
the "layers.3" example. -/
theorem C5_witness : GetCallNodeVariableName 10 stLayers 3 = .ok "layers.3" := by
  have h := (C5_variable_resolution 10 stLayers 3 (Or.inr (by decide)) 10 []
      (by decide)).2.2 "3" 11 [] ["layers"] (by decide) (by decide)
      (ContainerChain.last 11 "layers" (by decide) (by decide) (by decide))
      (by decide)
  rw [h]
  rfl

/-! ## Claim C8: missing "name" attributes during resolution -/

/-- State for the C8 counterexample: node 3 calls a method on value 10,
produced by node 1 (named "3"); node 1's first input 11 is ModuleList-typed
but its producer, node 2, has no "name" attribute, so the backward walk
performs an attribute lookup that fails. -/
def stC8 : IRState :=
  { graphs := [], blocks := [], funcs := [],
    nodes := [ (1, { kind := "prim::GetAttr", inputs := [11], outputs := [10],
                     attrName := some "3", scope := [], subBlocks := [], owningBlock := 0 }),
               (2, { kind := "prim::Param", inputs := [], outputs := [11],
                     attrName := none, scope := [], subBlocks := [], owningBlock := 0 }),
               (3, { kind := "prim::CallMethod", inputs := [10], outputs := [12],
                     attrName := some "forward", scope := [], subBlocks := [], owningBlock := 0 }) ],
    values := [ (10, { type := IRType.classType (some ⟨["__torch__", "pkg", "Sub"]⟩) [],
                       producer := 1 }),
                (11, { type := IRType.classType
                        (some ⟨["__torch__", "torch", "nn", "modules", "container", "ModuleList"]⟩) [],
                       producer := 2 }),
                (12, { type := IRType.otherType, producer := 3 }) ],
    fresh := 100 }

/-- C8 counterexample: the claim says a missing "name" attribute at any point
of variable resolution is never an error, including in the backward
container walk; but there the code reads the attribute unguarded
(parent_module_node->s(attr::name), source line 56), which is a fatal
attribute lookup. -/
theorem C8_counterexample :
    GetCallNodeVariableName 10 stC8 3 = .err .attrMissing := by decide

/-- C8 (amended): a missing "name" attribute on the producer of the call's
first input is not an error — the resolver returns the empty string; but a
missing "name" attribute on a container node reached during the backward
walk is a fatal attribute lookup (Err.attrMissing), not a graceful
degradation. -/
theorem C8_walk_name_fatal :
    (∀ (fuel : Nat) (st : IRState) (c : NodeId) (in0 : ValueId) (ins : List ValueId),
      ((getNode st c).kind = kCallFunction ∨ (getNode st c).kind = kCallMethod) →
      (getNode st c).inputs = in0 :: ins →
      (getNode st (valProducer st in0)).attrName = none →
      GetCallNodeVariableName fuel st c = .ok "") ∧
    (∀ (fuel : Nat) (st : IRState) (w : ValueId) (acc : String),
      isModuleListVal st w = true →
      (getNode st (valProducer st w)).attrName = none →
      containerNameWalk (fuel + 1) st (some w) acc = .err .attrMissing) ∧
    (∀ (fuel : Nat) (st : IRState) (c : NodeId) (in0 : ValueId) (ins : List ValueId)
        (m : String) (w : ValueId) (ws : List ValueId),
      ((getNode st c).kind = kCallFunction ∨ (getNode st c).kind = kCallMethod) →
      (getNode st c).inputs = in0 :: ins →
      (getNode st (valProducer st in0)).attrName = some m →
      (getNode st (valProducer st in0)).inputs = w :: ws →
      isModuleListVal st w = true →
      (getNode st (valProducer st w)).attrName = none →
      GetCallNodeVariableName (fuel + 1) st c = .err .attrMissing) := by
  have hwalk : ∀ (fuel : Nat) (st : IRState) (w : ValueId) (acc : String),
      isModuleListVal st w = true →
      (getNode st (valProducer st w)).attrName = none →
      containerNameWalk (fuel + 1) st (some w) acc = .err .attrMissing := by
    intro fuel st w acc hml hattr
    simp [containerNameWalk, hml, hattr]
  refine ⟨?_, hwalk, ?_⟩
  · intro fuel st c in0 ins hkind hins hattr
    simp [GetCallNodeVariableName, hkind, hins, hattr]
  · intro fuel st c in0 ins m w ws hkind hins hattr hcons hml hwattr
    simp only [GetCallNodeVariableName, hins, hattr, hcons]
    rw [if_neg (not_not.mpr hkind)]
    exact hwalk fuel st w m hml hwattr

/-- C8 witness: the fatal-walk clause of C8_walk_name_fatal at stC8. -/
theorem C8_witness : GetCallNodeVariableName 10 stC8 3 = .err .attrMissing ∧
    GetCallNodeVariableName 7 stC8 3 = .err .attrMissing := by
  constructor
  · exact C8_walk_name_fatal.2.2 9 stC8 3 10 [] "3" 11 []
      (Or.inr (by decide)) (by decide) (by decide) (by decide) (by decide) (by decide)
  · exact C8_walk_name_fatal.2.2 6 stC8 3 10 [] "3" 11 []
      (Or.inr (by decide)) (by decide) (by decide) (by decide) (by decide) (by decide)

/-! ## Claim C9: termination of the backward walk -/

/-- A producer chain on which the walk stops in finitely many steps: the
value is not container-typed, or the walk fails at the name attribute, or
the chain reaches a producer with no inputs, or one step down the chain is
finite. -/
inductive FiniteWalk (st : IRState) : ValueId → Prop where
  | notContainer (v : ValueId) :
      isModuleListVal st v = false → FiniteWalk st v
  | noName (v : ValueId) :
      isModuleListVal st v = true →
      (getNode st (valProducer st v)).attrName = none → FiniteWalk st v
  | noInput (v : ValueId) :
      isModuleListVal st v = true →
      (getNode st (valProducer st v)).inputs = [] → FiniteWalk st v
  | step (v w : ValueId) (ws : List ValueId) :
      isModuleListVal st v = true →
      (getNode st (valProducer st v)).inputs = w :: ws →
      FiniteWalk st w → FiniteWalk st v

/-- State for the C9 counterexample: value 0 is ModuleList-typed and its
producer, node 0, is named and feeds its own output back as its first input:
a cyclic producer chain. -/
def stCyc : IRState :=
  { graphs := [], blocks := [], funcs := [],
    nodes := [ (0, { kind := "prim::GetAttr", inputs := [0], outputs := [0],
                     attrName := some "a", scope := [], subBlocks := [], owningBlock := 0 }) ],
    values := [ (0, { type := IRType.classType
                        (some ⟨["__torch__", "torch", "nn", "modules", "container", "ModuleList"]⟩) [],
                      producer := 0 }) ],
    fresh := 10 }

theorem stCyc_walk (n : Nat) : ∀ acc, containerNameWalk n stCyc (some 0) acc
    = .err .outOfFuel := by
  induction n with
  | zero => intro acc; rfl
  | succ n ih =>
    intro acc
    have hml : isModuleListVal stCyc 0 = true := by decide
    have hattr : (getNode stCyc (valProducer stCyc 0)).attrName = some "a" := by decide
    have hins : (getNode stCyc (valProducer stCyc 0)).inputs = [0] := by decide
    simp only [containerNameWalk, hml, hattr, hins, if_pos]
    exact ih ("a" ++ "." ++ acc)

/-- C9 counterexample: on the cyclic ModuleList-typed producer chain of
stCyc the while-loop never completes — no recursion budget suffices —
refuting the claim that the walk terminates on every chain, cyclic ones
included. -/
theorem C9_counterexample :
    ¬ ∃ n : Nat, containerNameWalk n stCyc (some 0) "x" ≠ .err .outOfFuel := by
  intro h
  rcases h with ⟨n, hn⟩
  exact hn (stCyc_walk n "x")

/-- C9 (amended): the backward walk terminates on every producer chain that
eventually exits — by reaching a value that is not ModuleList-typed, a
container producer with no first input, or a fatal missing-name attribute —
which well-formed (acyclic, SSA) graphs guarantee; a cyclic all-container
chain (see the counterexample) instead loops forever. -/
theorem C9_termination (st : IRState) (v : ValueId) (h : FiniteWalk st v) :
    ∀ acc, ∃ n : Nat, containerNameWalk n st (some v) acc ≠ .err .outOfFuel := by
  induction h with
  | notContainer v hml =>
    intro acc
    refine ⟨1, ?_⟩
    simp [containerNameWalk, hml]
  | noName v hml hattr =>
    intro acc
    refine ⟨1, ?_⟩
    simp [containerNameWalk, hml, hattr]
  | noInput v hml hins =>
    intro acc
    cases hattr : (getNode st (valProducer st v)).attrName with
    | none => exact ⟨1, by simp [containerNameWalk, hml, hattr]⟩
    | some nm =>
      refine ⟨2, ?_⟩
      simp [containerNameWalk, hml, hattr, hins]
  | step v w ws hml hins _ ih =>
    intro acc
    cases hattr : (getNode st (valProducer st v)).attrName with
    | none => exact ⟨1, by simp [containerNameWalk, hml, hattr]⟩
    | some nm =>
      rcases ih (nm ++ "." ++ acc) with ⟨n, hn⟩
      refine ⟨n + 1, ?_⟩
      simpa [containerNameWalk, hml, hattr, hins] using hn

/-- C9 witness: the termination theorem at the finite chain of stLayers. -/
theorem C9_witness :
    ∃ n : Nat, containerNameWalk n stLayers (some 11) "3" ≠ .err .outOfFuel := by
  exact C9_termination stLayers 11
    (FiniteWalk.noInput 11 (by decide) (by decide)) "3"

/-! ## Scope preservation (claim C3) -/

/-- Two states agree on every graph record. -/
def GraphsEq (st st' : IRState) : Prop :=
  ∀ g : GraphId, alook st'.graphs g = alook st.graphs g

/-- A pass step preserves every graph record (in particular every graph's
current scope), whether it succeeds or fails. -/
def GPres (st : IRState) (r : PRes) : Prop :=
  GraphsEq st (resState r)

theorem gpres_of_graphs (st : IRState) (r : PRes)
    (h : (resState r).graphs = st.graphs) : GPres st r := by
  intro g
  rw [h]

theorem gpres_trans (st st' : IRState) (r : PRes)
    (h1 : GraphsEq st st') (h2 : GPres st' r) : GPres st r := by
  intro g
  exact (h2 g).trans (h1 g)

theorem gpres_bind (st : IRState) (r : PRes) (f : IRState → PRes)
    (h1 : GPres st r) (h2 : ∀ s, GPres s (f s)) : GPres st (PRes.bind r f) := by
  cases r with
  | ok s => exact fun g => ((h2 s) g).trans (h1 g)
  | fatal e s => exact fun g => h1 g

theorem graphs_destroyIfUnused (st : IRState) (n : NodeId) :
    (destroyIfUnused st n).graphs = st.graphs := by
  unfold destroyIfUnused removeNodeRaw
  split <;> rfl

theorem graphs_resState_destroyNode (st : IRState) (n : NodeId) :
    (resState (destroyNode st n)).graphs = st.graphs := by
  unfold destroyNode removeNodeRaw
  split <;> rfl

theorem graphs_copyFirstOutputMetadata (st : IRState) (d s : NodeId) :
    (copyFirstOutputMetadata st d s).graphs = st.graphs := by
  unfold copyFirstOutputMetadata
  split <;> rfl

theorem graphs_spliceFold (t : BlockId) (cids : List NodeId) :
    ∀ acc : IRState × List (ValueId × ValueId) × List NodeId,
      (cids.foldl (spliceOne t) acc).1.graphs = acc.1.graphs := by
  induction cids with
  | nil => intro acc; rfl
  | cons c rest ih =>
    intro acc
    rw [List.foldl_cons]
    exact (ih (spliceOne t acc c)).trans rfl

theorem graphs_resState_inlineCallTo (st : IRState) (c : NodeId) (g : GraphId) :
    (resState (inlineCallTo st c g)).graphs = st.graphs := by
  unfold inlineCallTo
  dsimp only
  split
  · rfl
  · split
    · rfl
    · rw [graphs_resState_destroyNode]
      show (spliceNodes st _ _ _).1.graphs = _
      unfold spliceNodes
      rw [graphs_spliceFold]

theorem gpres_inlineCallTo (st : IRState) (c : NodeId) (g : GraphId) :
    GPres st (inlineCallTo st c g) :=
  gpres_of_graphs _ _ (graphs_resState_inlineCallTo st c g)

theorem setGraphScope_currentScope_eq (st : IRState) (g : GraphId) (s : ScopePath) :
    alook (setGraphScope st g s).graphs g =
      (alook st.graphs g).map fun gr => { gr with currentScope := s } := by
  show alook (aupdate st.graphs g fun gr => { gr with currentScope := s }) g = _
  exact alook_aupdate_eq _ _ _

theorem setGraphScope_currentScope_ne (st : IRState) (g j : GraphId) (s : ScopePath)
    (h : j ≠ g) : alook (setGraphScope st g s).graphs j = alook st.graphs j := by
  show alook (aupdate st.graphs g fun gr => { gr with currentScope := s }) j = _
  exact alook_aupdate_ne _ _ _ _ h

theorem alook_scope_restore (st st2 : IRState) (gid : GraphId) (sc : ScopePath)
    (h2 : GraphsEq (setGraphScope st gid sc) st2) :
    ∀ g, alook (setGraphScope st2 gid (getGraphScope st gid)).graphs g
      = alook st.graphs g := by
  intro g
  by_cases hg : g = gid
  · subst hg
    rw [setGraphScope_currentScope_eq, h2 g, setGraphScope_currentScope_eq,
      Option.map_map]
    cases hl : alook st.graphs g with
    | none => rfl
    | some gr =>
      have hscope : getGraphScope st g = gr.currentScope := by
        unfold getGraphScope getGraph
        rw [hl]
        rfl
      simp only [Option.map_some', Function.comp]
      rw [hscope]
  · rw [setGraphScope_currentScope_ne _ _ _ _ hg, h2 g,
      setGraphScope_currentScope_ne _ _ _ _ hg]

theorem gpres_withGraphScope (st : IRState) (gid : GraphId) (sc : ScopePath)
    (act : IRState → PRes)
    (hact : GPres (setGraphScope st gid sc) (act (setGraphScope st gid sc))) :
    GPres st (withGraphScope st gid sc act) := by
  unfold withGraphScope GPres GraphsEq
  cases hres : act (setGraphScope st gid sc) with
  | ok st' =>
    intro g
    have h2 : GraphsEq (setGraphScope st gid sc) st' := by
      rw [hres] at hact
      exact hact
    exact alook_scope_restore st st' gid sc h2 g
  | fatal e st' =>
    intro g
    have h2 : GraphsEq (setGraphScope st gid sc) st' := by
      rw [hres] at hact
      exact hact
    exact alook_scope_restore st st' gid sc h2 g

theorem graphs_aupdateNode (st : IRState) (n : NodeId) (f : Node → Node) :
    (aupdateNode st n f).graphs = st.graphs := rfl

theorem graphs_aupdateBlock (st : IRState) (b : BlockId) (f : BlockRec → BlockRec) :
    (aupdateBlock st b f).graphs = st.graphs := rfl

theorem graphs_aupdateValue (st : IRState) (v : ValueId) (f : ValueRec → ValueRec) :
    (aupdateValue st v f).graphs = st.graphs := rfl

theorem graphs_removeInput0 (st : IRState) (n : NodeId) :
    (removeInput0 st n).graphs = st.graphs := rfl

theorem graphs_removeAllInputs (st : IRState) (n : NodeId) :
    (removeAllInputs st n).graphs = st.graphs := rfl

theorem graphs_setNodeScope (st : IRState) (n : NodeId) (s : ScopePath) :
    (setNodeScope st n s).graphs = st.graphs := rfl

theorem graphs_replaceAllUsesWith (st : IRState) (o n : List ValueId) :
    (replaceAllUsesWith st o n).graphs = st.graphs := rfl

theorem graphs_insertAfterNode (st : IRState) (a b : NodeId) :
    (insertAfterNode st a b).graphs = st.graphs := rfl

theorem graphs_copyNodeMetadata (st : IRState) (a b : NodeId) :
    (copyNodeMetadata st a b).graphs = st.graphs := rfl

theorem graphs_createNode (st : IRState) (k : String) (i : List ValueId) (o : Nat) :
    (createNode st k i o).1.graphs = st.graphs := rfl

theorem graphs_removeNodeRaw (st : IRState) (n : NodeId) :
    (removeNodeRaw st n).graphs = st.graphs := rfl

theorem graphsEq_of_eq (st st' : IRState) (h : st'.graphs = st.graphs) :
    GraphsEq st st' := by
  intro g
  rw [h]

theorem gpres_all (fuel : Nat) :
    (∀ st bid curId, GPres st (functionCallSubstitutionNode fuel st bid curId)) ∧
    (∀ wl st bid, GPres st (functionCallSubstitutionLoop fuel st bid wl)) ∧
    (∀ st bid, GPres st (functionCallSubstitution fuel st bid)) ∧
    (∀ bs st, GPres st (functionCallSubstitutionBlocks fuel st bs)) := by
  induction fuel using Nat.strong_induction_on with
  | _ fuel IH =>
    have hnode : ∀ st bid curId,
        GPres st (functionCallSubstitutionNode fuel st bid curId) := by
      intro st bid curId
      rw [functionCallSubstitutionNode]
      dsimp only
      split
      · -- CallFunction
        split
        · exact gpres_of_graphs _ _ rfl
        · split
          · exact gpres_of_graphs _ _ rfl
          · split
            · -- functionType
              split
              · -- interpolate substitution
                apply gpres_of_graphs
                unfold interpSubstitute
                dsimp only
                rw [graphs_resState_destroyNode]
                simp only [graphs_removeAllInputs, graphs_replaceAllUsesWith,
                  graphs_copyNodeMetadata, graphs_insertAfterNode,
                  graphs_copyFirstOutputMetadata, graphs_createNode,
                  graphs_destroyIfUnused, graphs_removeInput0]
              · -- generic inlining
                split
                · apply gpres_of_graphs
                  show (destroyIfUnused (removeInput0 st curId) _).graphs = st.graphs
                  rw [graphs_destroyIfUnused, graphs_removeInput0]
                · split
                  · apply gpres_of_graphs
                    show (destroyIfUnused (removeInput0 st curId) _).graphs = st.graphs
                    rw [graphs_destroyIfUnused, graphs_removeInput0]
                  · refine gpres_trans st _ _ ?_
                      (gpres_bind _ _ _ ((IH _ (Nat.lt_succ_self _)).2.2.1 _ _)
                        (fun s => gpres_inlineCallTo s _ _))
                    apply graphsEq_of_eq
                    rw [graphs_destroyIfUnused, graphs_removeInput0]
            · exact gpres_of_graphs _ _ rfl
      · split
        · -- CallMethod
          split
          · exact gpres_of_graphs _ _ rfl
          · split
            · exact gpres_of_graphs _ _ rfl
            · split
              · -- classType
                split
                · exact gpres_of_graphs _ _ rfl
                · split
                  · exact gpres_of_graphs _ _ rfl
                  · apply gpres_withGraphScope
                    split
                    · exact fun g => rfl
                    · apply gpres_withGraphScope
                      split
                      · exact fun g => rfl
                      · exact gpres_bind _ _ _ ((IH _ (Nat.lt_succ_self _)).2.2.1 _ _)
                          (fun s3 => gpres_inlineCallTo s3 _ _)
              · exact fun g => rfl
        · -- default
          split
          · apply gpres_of_graphs
            show (if (getGraphScope st _).isEmpty then st
                else setNodeScope st curId (getGraphScope st _)).graphs = st.graphs
            split <;> rfl
          · split
            · apply gpres_of_graphs
              show (if (getGraphScope st _).isEmpty then st
                  else setNodeScope st curId (getGraphScope st _)).graphs = st.graphs
              split <;> rfl
            · refine gpres_trans st _ _ ?_ ((IH _ (Nat.lt_succ_self _)).2.2.2 _ _)
              apply graphsEq_of_eq
              split <;> rfl
    have hloop : ∀ wl st bid, GPres st (functionCallSubstitutionLoop fuel st bid wl) := by
      intro wl
      induction wl with
      | nil =>
        intro st bid
        rw [functionCallSubstitutionLoop]
        exact fun g => rfl
      | cons n rest ih =>
        intro st bid
        rw [functionCallSubstitutionLoop]
        split
        · apply gpres_bind
          · exact hnode st bid n
          · intro s
            exact ih s bid
        · exact ih st bid
    have hfcs : ∀ st bid, GPres st (functionCallSubstitution fuel st bid) := by
      intro st bid
      rw [functionCallSubstitution]
      exact hloop _ st bid
    have hblocks : ∀ bs st, GPres st (functionCallSubstitutionBlocks fuel st bs) := by
      intro bs
      induction bs with
      | nil =>
        intro st
        rw [functionCallSubstitutionBlocks]
        exact fun g => rfl
      | cons b rest ih =>
        intro st
        rw [functionCallSubstitutionBlocks]
        apply gpres_bind
        · exact hfcs st b
        · intro s
          exact ih s
    exact ⟨hnode, hloop, hfcs, hblocks⟩

/-- C3: every scope frame pushed during the pass is popped exactly once —
after ONNXFunctionCallSubstitution completes, on the success path and on
the fatal (exception/assert) path alike, every graph's current scope
equals its value before the pass.  (The invariant is proved for every
graph, hence for the transformed one; gpres_all carries it through every
nested scope guard, in particular across each call's handling.) -/
theorem C3_scope_restoration (fuel : Nat) (st : IRState) (gid : GraphId) :
    ∀ g : GraphId,
      getGraphScope (resState (ONNXFunctionCallSubstitution fuel st gid)) g
        = getGraphScope st g := by
  intro g
  have h : GPres st (ONNXFunctionCallSubstitution fuel st gid) := by
    unfold ONNXFunctionCallSubstitution
    dsimp only
    split
    · exact gpres_withGraphScope _ _ _ _ ((gpres_all fuel).2.2.1 _ _)
    · split
      · exact gpres_withGraphScope _ _ _ _ ((gpres_all fuel).2.2.1 _ _)
      · exact gpres_withGraphScope _ _ _ _ ((gpres_all fuel).2.2.1 _ _)
  show ((alook (resState (ONNXFunctionCallSubstitution fuel st gid)).graphs g).getD
      defaultGraph).currentScope = _
  rw [h g]
  rfl

/-! ## Claim C10: fatal method lookup -/

/-- C10: for a method-call instruction whose receiver's static type is a
class type that does not define a method with the call's name, the pass
aborts fatally at method lookup (ClassType::getMethod returns a reference
and cannot denote absence), leaving the state untouched rather than falling
into the leave-unmodified paths. -/
theorem C10_method_lookup_fatal (fuel : Nat) (st : IRState) (bid : BlockId)
    (curId : NodeId) (name : String) (qn : Option QualifiedName)
    (ms : List (String × FuncId)) (in0 : ValueId) (ins : List ValueId)
    (hkind : (getNode st curId).kind = kCallMethod)
    (hattr : (getNode st curId).attrName = some name)
    (hins : (getNode st curId).inputs = in0 :: ins)
    (htype : valueType st in0 = IRType.classType qn ms)
    (hmeth : alookStr ms name = none) :
    functionCallSubstitutionNode fuel st bid curId = .fatal .methodNotFound st := by
  have hne : ¬ (getNode st curId).kind = kCallFunction := by
    rw [hkind]; decide
  rw [functionCallSubstitutionNode]
  dsimp only
  rw [if_neg hne, if_pos hkind]
  simp only [hattr, hins, htype, hmeth]

/-- State for the C10 witness: node 3 is a CallMethod named "forward" whose
receiver's class type has an empty method table. -/
def stC10 : IRState :=
  { graphs := [ (0, { blockId := 0, inputs := [10], currentScope := [] }) ],
    blocks := [ (0, { owningGraph := 0, nodes := [3], returns := [] }) ],
    funcs := [],
    nodes := [ (3, { kind := "prim::CallMethod", inputs := [10], outputs := [],
                     attrName := some "forward", scope := [], subBlocks := [], owningBlock := 0 }) ],
    values := [ (10, { type := IRType.classType (some ⟨["__torch__", "pkg", "M"]⟩) [],
                       producer := 0 }) ],
    fresh := 50 }

/-- C10 witness: the theorem at stC10. -/
theorem C10_witness :
    functionCallSubstitutionNode 4 stC10 0 3 = .fatal .methodNotFound stC10 :=
  C10_method_lookup_fatal 4 stC10 0 3 "forward" (some ⟨["__torch__", "pkg", "M"]⟩) []
    10 [] (by decide) (by decide) (by decide) (by decide) (by decide)

/-! ## Claim C7: unresolvable method-calls left untouched -/

theorem getFunc_setGraphScope (st : IRState) (g : GraphId) (s : ScopePath)
    (f : FuncId) : getFunc (setGraphScope st g s) f = getFunc st f := rfl

/-- C7: a method-call whose receiver type is not a class type, or whose
resolved method has no inspectable graph body, is left completely
unmodified by the step: it is neither substituted nor inlined (the node,
block and value stores are unchanged, so the instruction is still in its
block with its original shape and its original scope annotation — it is
not stamped), and every graph's current scope is as before. -/
theorem C7_unresolvable_untouched (fuel : Nat) (st : IRState) (bid : BlockId)
    (curId : NodeId) (name : String) (in0 : ValueId) (ins : List ValueId)
    (hkind : (getNode st curId).kind = kCallMethod)
    (hattr : (getNode st curId).attrName = some name)
    (hins : (getNode st curId).inputs = in0 :: ins)
    (hcase :
      (∀ (qn : Option QualifiedName) (ms : List (String × FuncId)),
        valueType st in0 ≠ IRType.classType qn ms) ∨
      (∃ (qn : Option QualifiedName) (ms : List (String × FuncId))
          (f : FuncId) (sn : String),
        valueType st in0 = IRType.classType qn ms ∧
        alookStr ms name = some f ∧
        SetScopeGuardScopeName fuel st curId = .ok sn ∧
        (getFunc st f).graphId = none)) :
    ∃ st', functionCallSubstitutionNode fuel st bid curId = .ok st' ∧
      st'.nodes = st.nodes ∧ st'.blocks = st.blocks ∧ st'.values = st.values ∧
      (∀ g, getGraphScope st' g = getGraphScope st g) := by
  have hne : ¬ (getNode st curId).kind = kCallFunction := by
    rw [hkind]; decide
  rcases hcase with hnc | ⟨qn, ms, f, sn, hv, hm, hsn, hgr⟩
  · cases hv : valueType st in0 with
    | classType qn ms => exact absurd hv (hnc qn ms)
    | functionType f =>
      refine ⟨st, ?_, rfl, rfl, rfl, fun g => rfl⟩
      rw [functionCallSubstitutionNode]
      dsimp only
      rw [if_neg hne, if_pos hkind]
      simp only [hattr, hins, hv]
    | otherType =>
      refine ⟨st, ?_, rfl, rfl, rfl, fun g => rfl⟩
      rw [functionCallSubstitutionNode]
      dsimp only
      rw [if_neg hne, if_pos hkind]
      simp only [hattr, hins, hv]
  · refine ⟨setGraphScope
        (setGraphScope st ((getBlock st bid).owningGraph)
          (getGraphScope st ((getBlock st bid).owningGraph) ++ [sn]))
        ((getBlock st bid).owningGraph)
        (getGraphScope st ((getBlock st bid).owningGraph)), ?_, rfl, rfl, rfl, ?_⟩
    · rw [functionCallSubstitutionNode]
      dsimp only
      rw [if_neg hne, if_pos hkind]
      simp only [hattr, hins, hv, hm, hsn]
      unfold withGraphScope
      dsimp only
      rw [getFunc_setGraphScope, hgr]
    · intro g
      have h := alook_scope_restore st
        (setGraphScope st ((getBlock st bid).owningGraph)
          (getGraphScope st ((getBlock st bid).owningGraph) ++ [sn]))
        ((getBlock st bid).owningGraph)
        (getGraphScope st ((getBlock st bid).owningGraph) ++ [sn])
        (fun _ => rfl) g
      unfold getGraphScope getGraph at h ⊢
      rw [h]

/-- State for the C7 witness: node 3 is a CallMethod named "forward" whose
receiver value 10 has a non-class static type. -/
def stC7 : IRState :=
  { graphs := [ (0, { blockId := 0, inputs := [10], currentScope := [] }) ],
    blocks := [ (0, { owningGraph := 0, nodes := [3], returns := [] }) ],
    funcs := [],
    nodes := [ (3, { kind := "prim::CallMethod", inputs := [10], outputs := [],
                     attrName := some "forward", scope := [], subBlocks := [], owningBlock := 0 }) ],
    values := [ (10, { type := IRType.otherType, producer := 0 }) ],
    fresh := 50 }

/-- C7 witness: the theorem at stC7 (non-class receiver). -/
theorem C7_witness :
    ∃ st', functionCallSubstitutionNode 4 stC7 0 3 = .ok st' ∧
      st'.nodes = stC7.nodes ∧ st'.blocks = stC7.blocks ∧
      st'.values = stC7.values ∧
      (∀ g, getGraphScope st' g = getGraphScope stC7 g) := by
  apply C7_unresolvable_untouched 4 stC7 0 3 "forward" 10 []
    (by decide) (by decide) (by decide)
  refine Or.inl ?_
  intro qn ms h
  have hv : valueType stC7 10 = IRType.otherType := by decide
  rw [hv] at h
  exact IRType.noConfusion h

/-! ## Store bookkeeping lemmas (for the rewrite claims C1/C2/C4) -/

theorem alook_cons {α : Type} (p : Nat × α) (ps : List (Nat × α)) (k : Nat) :
    alook (p :: ps) k = if p.1 = k then some p.2 else alook ps k := rfl

theorem alook_some_mem {α : Type} (l : List (Nat × α)) (k : Nat) (v : α)
    (h : alook l k = some v) : (k, v) ∈ l := by
  induction l with
  | nil => simp [alook] at h
  | cons p ps ih =>
    by_cases hp : p.1 = k
    · rw [alook_cons, if_pos hp] at h
      have hv : p.2 = v := by injection h
      have hpkv : p = (k, v) := by
        cases p
        cases hp
        cases hv
        rfl
      rw [← hpkv]
      exact List.mem_cons_self _ _
    · rw [alook_cons, if_neg hp] at h
      exact List.mem_cons_of_mem _ (ih h)

theorem aupdate_no_key {α : Type} (l : List (Nat × α)) (k : Nat) (f : α → α)
    (h : ∀ p ∈ l, ¬ p.1 = k) : aupdate l k f = l := by
  induction l with
  | nil => rfl
  | cons p ps ih =>
    rw [aupdate_cons, if_neg (h p (by simp))]
    rw [ih (fun q hq => h q (List.mem_cons_of_mem _ hq))]

theorem alook_map_snd {α : Type} (l : List (Nat × α)) (f : α → α) (k : Nat) :
    alook (l.map fun p => (p.1, f p.2)) k = (alook l k).map f := by
  induction l with
  | nil => rfl
  | cons p ps ih =>
    by_cases hp : p.1 = k
    · simp [alook_cons, hp]
    · simp only [List.map_cons, alook_cons, if_neg hp]
      exact ih

theorem alook_filter_ne {α : Type} (l : List (Nat × α)) (n j : Nat) (h : j ≠ n) :
    alook (l.filter fun p => ¬ p.1 = n) j = alook l j := by
  induction l with
  | nil => rfl
  | cons p ps ih =>
    rw [List.filter_cons]
    by_cases hp : p.1 = n
    · have hc : (decide ¬ p.1 = n) = false := decide_eq_false (not_not_intro hp)
      rw [hc]
      simp only [Bool.false_eq_true, if_false]
      rw [ih]
      have hpj : ¬ p.1 = j := by
        rw [hp]
        exact fun hh => h hh.symm
      rw [alook_cons, if_neg hpj]
    · have hc : (decide ¬ p.1 = n) = true := decide_eq_true hp
      rw [hc]
      simp only [if_true]
      rw [alook_cons, alook_cons, ih]

theorem alook_filter_self {α : Type} (l : List (Nat × α)) (n : Nat) :
    alook (l.filter fun p => ¬ p.1 = n) n = none := by
  induction l with
  | nil => rfl
  | cons p ps ih =>
    rw [List.filter_cons]
    by_cases hp : p.1 = n
    · have hc : (decide ¬ p.1 = n) = false := decide_eq_false (not_not_intro hp)
      rw [hc]
      simp only [Bool.false_eq_true, if_false]
      exact ih
    · have hc : (decide ¬ p.1 = n) = true := decide_eq_true hp
      rw [hc]
      simp only [if_true]
      rw [alook_cons, if_neg hp]
      exact ih

theorem insertAfterInList_cons (y : NodeId) (ys : List NodeId) (a n : NodeId) :
    insertAfterInList (y :: ys) a n =
      if y = a then y :: n :: ys else y :: insertAfterInList ys a n := rfl

theorem mem_insertAfterInList (l : List NodeId) (a n x : NodeId) :
    x ∈ insertAfterInList l a n ↔ x ∈ l ∨ (a ∈ l ∧ x = n) := by
  induction l with
  | nil => simp [insertAfterInList]
  | cons y ys ih =>
    rw [insertAfterInList_cons]
    by_cases hy : y = a
    · rw [if_pos hy]
      subst hy
      constructor
      · intro hx
        rcases List.mem_cons.mp hx with h1 | hx2
        · exact Or.inl (by rw [h1]; exact List.mem_cons_self _ _)
        · rcases List.mem_cons.mp hx2 with h2 | h3
          · exact Or.inr ⟨List.mem_cons_self _ _, h2⟩
          · exact Or.inl (List.mem_cons_of_mem _ h3)
      · intro hx
        rcases hx with h1 | ⟨ha, hxn⟩
        · rcases List.mem_cons.mp h1 with h2 | h2
          · exact (by rw [h2]; exact List.mem_cons_self _ _)
          · exact List.mem_cons_of_mem _ (List.mem_cons_of_mem _ h2)
        · exact List.mem_cons_of_mem _ (by rw [hxn]; exact List.mem_cons_self _ _)
    · rw [if_neg hy]
      constructor
      · intro hx
        rcases List.mem_cons.mp hx with h1 | h2
        · exact Or.inl (by rw [h1]; exact List.mem_cons_self _ _)
        · rcases ih.mp h2 with h3 | h3
          · exact Or.inl (List.mem_cons_of_mem _ h3)
          · exact Or.inr ⟨List.mem_cons_of_mem _ h3.1, h3.2⟩
      · intro hx
        rcases hx with h1 | ⟨ha, hxn⟩
        · rcases List.mem_cons.mp h1 with h2 | h2
          · exact (by rw [h2]; exact List.mem_cons_self _ _)
          · exact List.mem_cons_of_mem _ (ih.mpr (Or.inl h2))
        · rcases List.mem_cons.mp ha with h2 | h2
          · exact absurd h2.symm hy
          · exact List.mem_cons_of_mem _ (ih.mpr (Or.inr ⟨h2, hxn⟩))

theorem substVal_cases (olds news : List ValueId)
    (hlen : olds.length = news.length) (w : ValueId) :
    substVal olds news w ∈ news ∨ (substVal olds news w = w ∧ w ∉ olds) := by
  induction olds generalizing news w with
  | nil => right; exact ⟨rfl, by simp⟩
  | cons o os ih =>
    cases news with
    | nil => simp at hlen
    | cons n ns =>
      by_cases hw : w = o
      · left
        rw [substVal, if_pos hw]
        exact List.mem_cons_self n ns
      · rw [substVal, if_neg hw]
        rcases ih ns (by simpa using hlen) w with h | h
        · exact Or.inl (List.mem_cons_of_mem _ h)
        · right
          refine ⟨h.1, ?_⟩
          intro hc
          rcases List.mem_cons.mp hc with h1 | h1
          · exact hw h1
          · exact h.2 h1

theorem substVal_not_mem (olds news : List ValueId)
    (hlen : olds.length = news.length)
    (hdisj : ∀ n ∈ news, n ∉ olds) (w : ValueId) :
    substVal olds news w ∉ olds := by
  rcases substVal_cases olds news hlen w with h | h
  · exact hdisj _ h
  · rw [h.1]
    exact h.2

theorem getNode_of_alook (st : IRState) (n : NodeId) (v : Node)
    (h : alook st.nodes n = some v) : getNode st n = v := by
  unfold getNode
  rw [h]
  rfl

theorem alook_nodes_exists (st : IRState) (n : NodeId)
    (h : ¬ (getNode st n).kind = defaultNode.kind) :
    alook st.nodes n = some (getNode st n) := by
  unfold getNode at *
  cases hl : alook st.nodes n with
  | none =>
    rw [hl] at h
    exact absurd rfl h
  | some v => simp [hl]

theorem nodes_destroyIfUnused_ne (st : IRState) (n j : NodeId) (h : j ≠ n) :
    alook (destroyIfUnused st n).nodes j = alook st.nodes j := by
  unfold destroyIfUnused removeNodeRaw
  split
  · rfl
  · exact alook_filter_ne _ _ _ h

theorem nodes_destroyIfUnused_unused (st : IRState) (n : NodeId)
    (h : nodeHasUses st n = false) :
    alook (destroyIfUnused st n).nodes n = none := by
  unfold destroyIfUnused removeNodeRaw
  rw [if_neg (by rw [h]; exact Bool.false_ne_true)]
  exact alook_filter_self _ _

theorem blocks_mem_destroyIfUnused (st : IRState) (n j : NodeId) (b : BlockId)
    (h : j ≠ n) (hmem : j ∈ (getBlock st b).nodes) :
    j ∈ (getBlock (destroyIfUnused st n) b).nodes := by
  unfold destroyIfUnused removeNodeRaw
  split
  · exact hmem
  · unfold getBlock at hmem ⊢
    dsimp only
    by_cases hb : b = (getNode st n).owningBlock
    · subst hb
      rw [alook_aupdate_eq]
      cases hl : alook st.blocks ((getNode st n).owningBlock) with
      | none =>
        rw [hl] at hmem
        exact hmem
      | some br =>
        rw [hl] at hmem
        simp only [Option.getD_some] at hmem
        simp only [Option.map_some', Option.getD_some]
        exact List.mem_filter.mpr ⟨hmem, decide_eq_true h⟩
    · rw [alook_aupdate_ne _ _ _ _ hb]
      exact hmem

theorem returns_destroyIfUnused (st : IRState) (n : NodeId) (b : BlockId) :
    (getBlock (destroyIfUnused st n) b).returns = (getBlock st b).returns := by
  unfold destroyIfUnused removeNodeRaw
  split
  · rfl
  · unfold getBlock
    dsimp only
    by_cases hb : b = (getNode st n).owningBlock
    · subst hb
      rw [alook_aupdate_eq]
      cases hl : alook st.blocks ((getNode st n).owningBlock) with
      | none => rfl
      | some br => rfl
    · rw [alook_aupdate_ne _ _ _ _ hb]

theorem blocks_alook_destroyIfUnused_ne (st : IRState) (n : NodeId) (b : BlockId)
    (h : b ≠ (getNode st n).owningBlock) :
    alook (destroyIfUnused st n).blocks b = alook st.blocks b := by
  unfold destroyIfUnused removeNodeRaw
  split
  · rfl
  · dsimp only
    exact alook_aupdate_ne _ _ _ _ h

theorem fresh_destroyIfUnused (st : IRState) (n : NodeId) :
    (destroyIfUnused st n).fresh = st.fresh := by
  unfold destroyIfUnused removeNodeRaw
  split <;> rfl

theorem funcs_destroyIfUnused (st : IRState) (n : NodeId) :
    (destroyIfUnused st n).funcs = st.funcs := by
  unfold destroyIfUnused removeNodeRaw
  split <;> rfl

theorem values_destroyIfUnused (st : IRState) (n : NodeId) :
    (destroyIfUnused st n).values = st.values := by
  unfold destroyIfUnused removeNodeRaw
  split <;> rfl

theorem fst_mem_of_mem_aupdate {α : Type} (l : List (Nat × α)) (k : Nat)
    (f : α → α) (p : Nat × α) (h : p ∈ aupdate l k f) : p.1 ∈ l.map Prod.fst := by
  rcases List.mem_map.mp h with ⟨q, hq, hpq⟩
  have hfst : p.1 = q.1 := by
    by_cases hqk : q.1 = k
    · rw [← hpq]
      simp [hqk]
    · rw [← hpq]
      simp [hqk]
  rw [hfst]
  exact List.mem_map.mpr ⟨q, hq, rfl⟩

theorem nodes_bound_destroyIfUnused (st : IRState) (n : NodeId) (bnd : Nat)
    (h : ∀ p ∈ st.nodes, p.1 < bnd) :
    ∀ p ∈ (destroyIfUnused st n).nodes, p.1 < bnd := by
  unfold destroyIfUnused removeNodeRaw
  split
  · exact h
  · intro p hp
    exact h p (List.mem_of_mem_filter hp)

theorem substVal_id_of_not_mem (olds news : List ValueId) (w : ValueId)
    (h : w ∉ olds) : substVal olds news w = w := by
  induction olds generalizing news with
  | nil => rfl
  | cons o os ih =>
    cases news with
    | nil => rfl
    | cons n ns =>
      rw [substVal, if_neg (fun hw => h (by rw [hw]; exact List.mem_cons_self _ _))]
      exact ih ns (fun hc => h (List.mem_cons_of_mem _ hc))

theorem nodes_copyFirstOutputMetadata (st : IRState) (d s : NodeId) :
    (copyFirstOutputMetadata st d s).nodes = st.nodes := by
  unfold copyFirstOutputMetadata
  split <;> rfl

theorem blocks_copyFirstOutputMetadata (st : IRState) (d s : NodeId) :
    (copyFirstOutputMetadata st d s).blocks = st.blocks := by
  unfold copyFirstOutputMetadata
  split <;> rfl

theorem fresh_copyFirstOutputMetadata (st : IRState) (d s : NodeId) :
    (copyFirstOutputMetadata st d s).fresh = st.fresh := by
  unfold copyFirstOutputMetadata
  split <;> rfl

theorem funcs_copyFirstOutputMetadata (st : IRState) (d s : NodeId) :
    (copyFirstOutputMetadata st d s).funcs = st.funcs := by
  unfold copyFirstOutputMetadata
  split <;> rfl

theorem alook_lt_bound {α : Type} (l : List (Nat × α)) (k : Nat) (v : α)
    (bnd : Nat) (hb : ∀ p ∈ l, p.1 < bnd) (h : alook l k = some v) : k < bnd :=
  hb (k, v) (alook_some_mem l k v h)

theorem alook_ge_bound_none {α : Type} (l : List (Nat × α)) (k : Nat)
    (bnd : Nat) (hb : ∀ p ∈ l, p.1 < bnd) (h : bnd ≤ k) : alook l k = none := by
  cases hl : alook l k with
  | none => rfl
  | some v =>
    have := alook_lt_bound l k v bnd hb hl
    omega

/-! ## Claim C1: the interpolate substitution -/

/-- The fresh output values the interpolate substitution allocates. -/
def interpNewOuts (st : IRState) (cur0 : Node) : List ValueId :=
  (List.range cur0.outputs.length).map fun i => st.fresh + 1 + i

/-- The value substitution the interpolate substitution applies to every
remaining use: the call's i-th output becomes the new instruction's i-th
output. -/
def interpSigma (st : IRState) (cur0 : Node) : ValueId → ValueId :=
  substVal cur0.outputs (interpNewOuts st cur0)

theorem nodes_removeInput0 (st : IRState) (n : NodeId) :
    (removeInput0 st n).nodes
      = aupdate st.nodes n (fun nd => { nd with inputs := nd.inputs.tail }) := rfl

theorem nodes_createNode (st : IRState) (k : String) (i : List ValueId) (o : Nat) :
    ((createNode st k i o).1).nodes =
      (st.fresh,
        { kind := k, inputs := i,
          outputs := (List.range o).map fun j => st.fresh + 1 + j,
          attrName := none, scope := [], subBlocks := [], owningBlock := 0 })
        :: st.nodes := rfl

theorem blocks_createNode (st : IRState) (k : String) (i : List ValueId) (o : Nat) :
    ((createNode st k i o).1).blocks = st.blocks := rfl

theorem snd_createNode (st : IRState) (k : String) (i : List ValueId) (o : Nat) :
    (createNode st k i o).2 = st.fresh := rfl

theorem nodes_insertAfterNode (st : IRState) (a c : NodeId) :
    (insertAfterNode st a c).nodes =
      aupdate st.nodes a
        (fun nd => { nd with owningBlock := (getNode st c).owningBlock }) := rfl

theorem blocks_insertAfterNode (st : IRState) (a c : NodeId) :
    (insertAfterNode st a c).blocks =
      aupdate st.blocks ((getNode st c).owningBlock)
        (fun br => { br with nodes := insertAfterInList br.nodes c a }) := rfl

theorem nodes_copyNodeMetadata (st : IRState) (d s : NodeId) :
    (copyNodeMetadata st d s).nodes =
      aupdate st.nodes d (fun nd => { nd with scope := (getNode st s).scope }) := rfl

theorem blocks_copyNodeMetadata (st : IRState) (d s : NodeId) :
    (copyNodeMetadata st d s).blocks = st.blocks := rfl

theorem nodes_replaceAllUsesWith (st : IRState) (o n : List ValueId) :
    (replaceAllUsesWith st o n).nodes =
      st.nodes.map fun p =>
        (p.1, { p.2 with inputs := p.2.inputs.map (substVal o n) }) := rfl

theorem blocks_replaceAllUsesWith (st : IRState) (o n : List ValueId) :
    (replaceAllUsesWith st o n).blocks =
      st.blocks.map fun p =>
        (p.1, { p.2 with returns := p.2.returns.map (substVal o n) }) := rfl

theorem nodes_removeAllInputs (st : IRState) (n : NodeId) :
    (removeAllInputs st n).nodes =
      aupdate st.nodes n (fun nd => { nd with inputs := [] }) := rfl

theorem blocks_removeAllInputs (st : IRState) (n : NodeId) :
    (removeAllInputs st n).blocks = st.blocks := rfl

theorem nodes_removeNodeRaw (st : IRState) (n : NodeId) :
    (removeNodeRaw st n).nodes = st.nodes.filter fun p => ¬ p.1 = n := rfl

theorem blocks_removeNodeRaw (st : IRState) (n : NodeId) :
    (removeNodeRaw st n).blocks =
      aupdate st.blocks ((getNode st n).owningBlock)
        (fun br => { br with nodes := br.nodes.filter fun x => ¬ x = n }) := rfl

theorem interpNewOuts_length (st : IRState) (cur0 : Node) :
    (interpNewOuts st cur0).length = cur0.outputs.length := by
  unfold interpNewOuts
  simp

theorem interpNewOuts_disj (st : IRState) (cur0 : Node)
    (hboundOut : ∀ v ∈ cur0.outputs, v < st.fresh) :
    ∀ n ∈ interpNewOuts st cur0, n ∉ cur0.outputs := by
  intro n hn hc
  unfold interpNewOuts at hn
  rcases List.mem_map.mp hn with ⟨i, _, hi⟩
  have hlt := hboundOut n hc
  rw [← hi, Nat.add_assoc] at hlt
  exact absurd hlt (Nat.not_lt.mpr (Nat.le_add_right _ _))

theorem interpSigma_not_mem (st : IRState) (cur0 : Node)
    (hboundOut : ∀ v ∈ cur0.outputs, v < st.fresh) (w : ValueId) :
    interpSigma st cur0 w ∉ cur0.outputs := by
  unfold interpSigma
  exact substVal_not_mem _ _ (interpNewOuts_length st cur0).symm
    (interpNewOuts_disj st cur0 hboundOut) w

theorem getBlock_of_alook (st : IRState) (b : BlockId) (br : BlockRec)
    (h : alook st.blocks b = some br) : getBlock st b = br := by
  unfold getBlock
  rw [h]
  rfl

theorem blocks_destroyIfUnused_returns (st : IRState) (n : NodeId) (b : BlockId)
    (br : BlockRec) (h : alook st.blocks b = some br) :
    ∃ br2, alook (destroyIfUnused st n).blocks b = some br2 ∧
      br2.returns = br.returns := by
  unfold destroyIfUnused removeNodeRaw
  split
  · exact ⟨br, h, rfl⟩
  · dsimp only
    by_cases hb : b = (getNode st n).owningBlock
    · subst hb
      rw [alook_aupdate_eq, h]
      exact ⟨_, rfl, rfl⟩
    · rw [alook_aupdate_ne _ _ _ _ hb]
      exact ⟨br, h, rfl⟩

theorem map_interpSigma_fixed (st : IRState) (cur0 : Node) :
    ∀ l : List ValueId, (∀ v ∈ l, v ∉ cur0.outputs) →
      l.map (interpSigma st cur0) = l := by
  intro l hl
  induction l with
  | nil => rfl
  | cons x xs ih =>
    rw [List.map_cons, ih (fun v hv => hl v (List.mem_cons_of_mem _ hv))]
    have hx : interpSigma st cur0 x = x := by
      unfold interpSigma
      exact substVal_id_of_not_mem _ _ _ (hl x (List.mem_cons_self _ _))
    rw [hx]

theorem interpSubstitute_spec (st : IRState) (curId cId : NodeId) (cur0 : Node)
    (hcur0 : alook st.nodes curId = some cur0)
    (in0 : ValueId) (rest : List ValueId)
    (hins : cur0.inputs = in0 :: rest)
    (hcc : cId ≠ curId)
    (hcex : alook st.nodes cId ≠ none)
    (hboundN : ∀ p ∈ st.nodes, p.1 < st.fresh)
    (hboundOut : ∀ v ∈ cur0.outputs, v < st.fresh)
    (hmem : curId ∈ (getBlock st cur0.owningBlock).nodes)
    (hnoself : ∀ v ∈ rest, v ∉ cur0.outputs) :
    ∃ st', interpSubstitute st curId cId = .ok st' ∧
      alook st'.nodes curId = none ∧
      curId ∉ (getBlock st' cur0.owningBlock).nodes ∧
      (getNode st' st.fresh).kind = kInterpolate ∧
      (getNode st' st.fresh).inputs = rest ∧
      (getNode st' st.fresh).outputs.length = cur0.outputs.length ∧
      (getNode st' st.fresh).scope = cur0.scope ∧
      st.fresh ∈ (getBlock st' cur0.owningBlock).nodes ∧
      (∀ id, alook st.nodes id = none → id ≠ st.fresh → alook st'.nodes id = none) ∧
      (∀ id nd, id ≠ curId → id ≠ cId → alook st.nodes id = some nd →
        alook st'.nodes id =
          some { nd with inputs := nd.inputs.map (interpSigma st cur0) }) ∧
      (∀ b br, alook st.blocks b = some br →
        ∃ br', alook st'.blocks b = some br' ∧
          br'.returns = br.returns.map (interpSigma st cur0)) ∧
      (nodeHasUses (removeInput0 st curId) cId = false →
        alook st'.nodes cId = none) ∧
      st'.funcs = st.funcs := by
  have hcurlt : curId < st.fresh := alook_lt_bound _ _ _ _ hboundN hcur0
  have hcurne : curId ≠ st.fresh := Nat.ne_of_lt hcurlt
  obtain ⟨c0, hc0⟩ : ∃ c0, alook st.nodes cId = some c0 := by
    cases h : alook st.nodes cId with
    | none => exact absurd h hcex
    | some c0 => exact ⟨c0, rfl⟩
  have hclt : cId < st.fresh := alook_lt_bound _ _ _ _ hboundN hc0
  have hcnef : cId ≠ st.fresh := Nat.ne_of_lt hclt
  unfold interpSubstitute
  dsimp only
  set st1 := removeInput0 st curId with hs1
  set st2 := destroyIfUnused st1 cId with hs2
  have e1cur : alook st1.nodes curId = some { cur0 with inputs := rest } := by
    rw [hs1, nodes_removeInput0, alook_aupdate_eq, hcur0]
    simp [hins]
  have e1other : ∀ id, id ≠ curId → alook st1.nodes id = alook st.nodes id := by
    intro id h
    rw [hs1, nodes_removeInput0]
    exact alook_aupdate_ne _ _ _ _ h
  have e1bound : ∀ p ∈ st1.nodes, p.1 < st.fresh := by
    intro p hp
    rw [hs1, nodes_removeInput0] at hp
    have h1 := fst_mem_of_mem_aupdate _ _ _ p hp
    rcases List.mem_map.mp h1 with ⟨q, hq, hqe⟩
    rw [← hqe]
    exact hboundN q hq
  have e2cur : alook st2.nodes curId = some { cur0 with inputs := rest } := by
    rw [hs2, nodes_destroyIfUnused_ne _ _ _ (Ne.symm hcc)]
    exact e1cur
  have e2other : ∀ id, id ≠ curId → id ≠ cId →
      alook st2.nodes id = alook st.nodes id := by
    intro id h1 h2
    rw [hs2, nodes_destroyIfUnused_ne _ _ _ h2]
    exact e1other id h1
  have e2bound : ∀ p ∈ st2.nodes, p.1 < st.fresh := by
    rw [hs2]
    exact nodes_bound_destroyIfUnused st1 cId _ e1bound
  have e2fresh : st2.fresh = st.fresh := by
    rw [hs2]
    exact (fresh_destroyIfUnused st1 cId).trans (by rw [hs1]; rfl)
  have e2mem : curId ∈ (getBlock st2 cur0.owningBlock).nodes := by
    rw [hs2]
    exact blocks_mem_destroyIfUnused st1 cId curId _ (Ne.symm hcc) (by rw [hs1]; exact hmem)
  have g2 : getNode st2 curId = { cur0 with inputs := rest } :=
    getNode_of_alook _ _ _ e2cur
  rw [g2]
  dsimp only
  rw [snd_createNode, e2fresh]
  set created1 := (createNode st2 kInterpolate rest cur0.outputs.length).1 with hs3
  set rec1 : Node :=
    { kind := kInterpolate, inputs := rest, outputs := interpNewOuts st cur0,
      attrName := none, scope := [], subBlocks := [], owningBlock := 0 } with hrec1
  have e3nodes : created1.nodes = (st.fresh, rec1) :: st2.nodes := by
    rw [hs3, nodes_createNode, e2fresh]
    rfl
  have e3blocks : created1.blocks = st2.blocks := by
    rw [hs3, blocks_createNode]
  set st4 := copyFirstOutputMetadata created1 st.fresh curId with hs4
  have e4nodes : st4.nodes = (st.fresh, rec1) :: st2.nodes := by
    rw [hs4, nodes_copyFirstOutputMetadata, e3nodes]
  have e4blocks : st4.blocks = st2.blocks := by
    rw [hs4, blocks_copyFirstOutputMetadata, e3blocks]
  have hfc : ¬ (st.fresh = curId) := fun h => hcurne h.symm
  have a4cur : alook st4.nodes curId = some { cur0 with inputs := rest } := by
    rw [e4nodes, alook_cons, if_neg hfc]
    exact e2cur
  have g4 : getNode st4 curId = { cur0 with inputs := rest } :=
    getNode_of_alook _ _ _ a4cur
  set st5 := insertAfterNode st4 st.fresh curId with hs5
  have hnokey : ∀ q ∈ st2.nodes, ¬ q.1 = st.fresh :=
    fun q hq => Nat.ne_of_lt (e2bound q hq)
  set rec2 : Node := { rec1 with owningBlock := cur0.owningBlock } with hrec2
  have e5nodes : st5.nodes = (st.fresh, rec2) :: st2.nodes := by
    rw [hs5, nodes_insertAfterNode, g4, e4nodes, aupdate_cons, if_pos rfl,
      aupdate_no_key st2.nodes st.fresh _ hnokey]
  have e5blocks : st5.blocks = aupdate st2.blocks cur0.owningBlock
      (fun br => { br with nodes := insertAfterInList br.nodes curId st.fresh }) := by
    rw [hs5, blocks_insertAfterNode, g4, e4blocks]
  have a5cur : alook st5.nodes curId = some { cur0 with inputs := rest } := by
    rw [e5nodes, alook_cons, if_neg hfc]
    exact e2cur
  have g5 : getNode st5 curId = { cur0 with inputs := rest } :=
    getNode_of_alook _ _ _ a5cur
  set st6 := copyNodeMetadata st5 st.fresh curId with hs6
  set rec3 : Node := { rec2 with scope := cur0.scope } with hrec3
  have e6nodes : st6.nodes = (st.fresh, rec3) :: st2.nodes := by
    rw [hs6, nodes_copyNodeMetadata, g5, e5nodes, aupdate_cons, if_pos rfl,
      aupdate_no_key st2.nodes st.fresh _ hnokey]
  have e6blocks : st6.blocks = aupdate st2.blocks cur0.owningBlock
      (fun br => { br with nodes := insertAfterInList br.nodes curId st.fresh }) := by
    rw [hs6, blocks_copyNodeMetadata, e5blocks]
  have a6cur : alook st6.nodes curId = some { cur0 with inputs := rest } := by
    rw [e6nodes, alook_cons, if_neg hfc]
    exact e2cur
  have g6cur : getNode st6 curId = { cur0 with inputs := rest } :=
    getNode_of_alook _ _ _ a6cur
  have a6new : alook st6.nodes st.fresh = some rec3 := by
    rw [e6nodes, alook_cons, if_pos rfl]
  have g6new : getNode st6 st.fresh = rec3 := getNode_of_alook _ _ _ a6new
  rw [g6cur, g6new]
  dsimp only
  set st7 := replaceAllUsesWith st6 cur0.outputs (interpNewOuts st cur0) with hs7
  set st8 := removeAllInputs st7 curId with hs8
  set mapIn : Node → Node :=
    (fun nd => { nd with inputs := nd.inputs.map (interpSigma st cur0) }) with hmapIn
  have e7nodes : st7.nodes = st6.nodes.map (fun p => (p.1, mapIn p.2)) := by
    rw [hs7, nodes_replaceAllUsesWith]
    rfl
  have e7blocks : st7.blocks = st6.blocks.map (fun p =>
      (p.1, { p.2 with returns := p.2.returns.map (interpSigma st cur0) })) := by
    rw [hs7, blocks_replaceAllUsesWith]
    rfl
  have e8nodes : st8.nodes = aupdate st7.nodes curId (fun nd => { nd with inputs := [] }) := by
    rw [hs8, nodes_removeAllInputs]
  have e8blocks : st8.blocks = st7.blocks := by
    rw [hs8, blocks_removeAllInputs]
  have a7 : ∀ id, alook st7.nodes id = (alook st6.nodes id).map mapIn := by
    intro id
    rw [e7nodes]
    exact alook_map_snd _ _ _
  have a8ne : ∀ id, id ≠ curId →
      alook st8.nodes id = (alook st6.nodes id).map mapIn := by
    intro id h
    rw [e8nodes, alook_aupdate_ne _ _ _ _ h]
    exact a7 id
  have a8cur : alook st8.nodes curId = some { cur0 with inputs := ([] : List ValueId) } := by
    rw [e8nodes, alook_aupdate_eq, a7 curId, a6cur]
    rfl
  have g8cur : getNode st8 curId = { cur0 with inputs := ([] : List ValueId) } :=
    getNode_of_alook _ _ _ a8cur
  have hsig := interpSigma_not_mem st cur0 hboundOut
  have huses : nodeHasUses st8 curId = false := by
    unfold nodeHasUses
    rw [g8cur]
    dsimp only
    rw [List.any_eq_false]
    intro v hv
    unfold valueUsed
    rw [Bool.not_eq_true, Bool.or_eq_false_iff]
    constructor
    · rw [List.any_eq_false]
      intro p hp
      rw [e8nodes] at hp
      rcases List.mem_map.mp hp with ⟨q, hq, hpq⟩
      rw [e7nodes] at hq
      rcases List.mem_map.mp hq with ⟨r, hr, hqr⟩
      have hinp : p.2.inputs = [] ∨ p.2.inputs = r.2.inputs.map (interpSigma st cur0) := by
        by_cases hqc : q.1 = curId
        · left
          rw [← hpq]
          simp [hqc]
        · right
          rw [← hpq]
          simp only [hqc, if_neg, ite_false]
          rw [← hqr]
      have hnomem : v ∉ p.2.inputs := by
        rcases hinp with h0 | h0
        · rw [h0]
          simp
        · rw [h0]
          intro hc
          rcases List.mem_map.mp hc with ⟨w, _, hw⟩
          rw [← hw] at hv
          exact hsig w hv
      simp only [Bool.not_eq_true]
      simpa using hnomem
    · rw [List.any_eq_false]
      intro p hp
      rw [e8blocks] at hp
      rw [e7blocks] at hp
      rcases List.mem_map.mp hp with ⟨q, hq, hpq⟩
      have hnomem : v ∉ p.2.returns := by
        rw [← hpq]
        intro hc
        simp only at hc
        rcases List.mem_map.mp hc with ⟨w, _, hw⟩
        rw [← hw] at hv
        exact hsig w hv
      simp only [Bool.not_eq_true]
      simpa using hnomem
  have hT : destroyNode st8 curId = .ok (removeNodeRaw st8 curId) := by
    unfold destroyNode
    rw [huses]
    rfl
  have eTnodes : (removeNodeRaw st8 curId).nodes
      = st8.nodes.filter (fun p => ¬ p.1 = curId) := nodes_removeNodeRaw _ _
  have eTblocks : (removeNodeRaw st8 curId).blocks
      = aupdate st8.blocks cur0.owningBlock
        (fun br => { br with nodes := br.nodes.filter fun x => ¬ x = curId }) := by
    rw [blocks_removeNodeRaw, g8cur]
  have a8blocks : ∀ b, alook st8.blocks b = (alook st6.blocks b).map
      (fun br => { br with returns := br.returns.map (interpSigma st cur0) }) := by
    intro b
    rw [e8blocks, e7blocks]
    exact alook_map_snd st6.blocks
      (fun br => { br with returns := br.returns.map (interpSigma st cur0) }) b
  have a6blocksOwn : alook st6.blocks cur0.owningBlock
      = (alook st2.blocks cur0.owningBlock).map
        (fun br => { br with nodes := insertAfterInList br.nodes curId st.fresh }) := by
    rw [e6blocks]
    exact alook_aupdate_eq _ _ _
  obtain ⟨br2, hbr2, hbr2mem⟩ : ∃ br2,
      alook st2.blocks cur0.owningBlock = some br2 ∧ curId ∈ br2.nodes := by
    cases h : alook st2.blocks cur0.owningBlock with
    | none =>
      unfold getBlock at e2mem
      rw [h] at e2mem
      exact absurd e2mem (List.not_mem_nil _)
    | some br2 =>
      refine ⟨br2, rfl, ?_⟩
      unfold getBlock at e2mem
      rw [h] at e2mem
      exact e2mem
  have hTblockOwn : alook (removeNodeRaw st8 curId).blocks cur0.owningBlock
      = some { br2 with
          nodes := (insertAfterInList br2.nodes curId st.fresh).filter
            fun x => ¬ x = curId,
          returns := br2.returns.map (interpSigma st cur0) } := by
    rw [eTblocks, alook_aupdate_eq, a8blocks, a6blocksOwn, hbr2]
    rfl
  have hfc2 : ¬ (st.fresh = curId) := hfc
  have hrestfix : rest.map (interpSigma st cur0) = rest :=
    map_interpSigma_fixed st cur0 rest hnoself
  have aTnew : alook (removeNodeRaw st8 curId).nodes st.fresh = some (mapIn rec3) := by
    rw [eTnodes, alook_filter_ne _ _ _ hfc2, a8ne st.fresh hfc2, a6new]
    rfl
  have gTnew : getNode (removeNodeRaw st8 curId) st.fresh = mapIn rec3 :=
    getNode_of_alook _ _ _ aTnew
  refine ⟨removeNodeRaw st8 curId, hT, ?_, ?_, ?_, ?_, ?_, ?_, ?_, ?_, ?_, ?_, ?_, ?_⟩
  · rw [eTnodes]
    exact alook_filter_self _ _
  · rw [getBlock_of_alook _ _ _ hTblockOwn]
    intro hmem2
    have := (List.mem_filter.mp hmem2).2
    simp at this
  · rw [gTnew]
  · rw [gTnew]
    show rest.map (interpSigma st cur0) = rest
    exact hrestfix
  · rw [gTnew]
    show (interpNewOuts st cur0).length = cur0.outputs.length
    exact interpNewOuts_length st cur0
  · rw [gTnew]
  · rw [getBlock_of_alook _ _ _ hTblockOwn]
    refine List.mem_filter.mpr ⟨?_, decide_eq_true hfc2⟩
    exact (mem_insertAfterInList _ _ _ _).mpr (Or.inr ⟨hbr2mem, rfl⟩)
  · intro id hid hne2
    by_cases hic : id = curId
    · rw [eTnodes, hic]
      exact alook_filter_self _ _
    · have hic2 : id ≠ cId := by
        intro h
        rw [h, hc0] at hid
        exact Option.noConfusion hid
      rw [eTnodes, alook_filter_ne _ _ _ hic, a8ne id hic, e6nodes, alook_cons,
        if_neg (fun h => hne2 h.symm), e2other id hic hic2, hid]
      rfl
  · intro id nd hne1 hne2 hsome
    have hidlt : id < st.fresh := alook_lt_bound _ _ _ _ hboundN hsome
    have hidf : id ≠ st.fresh := Nat.ne_of_lt hidlt
    rw [eTnodes, alook_filter_ne _ _ _ hne1, a8ne id hne1, e6nodes, alook_cons,
      if_neg (fun h => hidf h.symm), e2other id hne1 hne2, hsome]
    rfl
  · intro b br hbr
    have hbr1 : alook st1.blocks b = some br := hbr
    obtain ⟨brx, hbrx, hretx⟩ := blocks_destroyIfUnused_returns st1 cId b br hbr1
    have hbrx2 : alook st2.blocks b = some brx := by
      rw [hs2]
      exact hbrx
    by_cases hb : b = cur0.owningBlock
    · subst hb
      refine ⟨_, hTblockOwn, ?_⟩
      show br2.returns.map (interpSigma st cur0) = br.returns.map (interpSigma st cur0)
      have : br2 = brx := by
        rw [hbr2] at hbrx2
        exact (Option.some.injEq _ _).mp hbrx2
      rw [this, hretx]
    · have hTb : alook (removeNodeRaw st8 curId).blocks b
          = (alook st6.blocks b).map
            (fun brr => { brr with returns := brr.returns.map (interpSigma st cur0) }) := by
        rw [eTblocks, alook_aupdate_ne _ _ _ _ hb]
        exact a8blocks b
      have h6b : alook st6.blocks b = some brx := by
        rw [e6blocks, alook_aupdate_ne _ _ _ _ hb]
        exact hbrx2
      refine ⟨{ brx with returns := brx.returns.map (interpSigma st cur0) }, ?_, ?_⟩
      · rw [hTb, h6b]
        rfl
      · show brx.returns.map (interpSigma st cur0) = br.returns.map (interpSigma st cur0)
        rw [hretx]
  · intro hunused
    have h2c : alook st2.nodes cId = none := by
      rw [hs2]
      exact nodes_destroyIfUnused_unused st1 cId hunused
    rw [eTnodes, alook_filter_ne _ _ _ hcc, a8ne cId hcc, e6nodes, alook_cons,
      if_neg (fun h => hcnef h.symm), h2c]
    rfl
  · have h1 : (removeNodeRaw st8 curId).funcs = st4.funcs := rfl
    have h2 : created1.funcs = st2.funcs := rfl
    have h3 : st2.funcs = st.funcs := by
      rw [hs2]
      exact (funcs_destroyIfUnused st1 cId).trans rfl
    rw [h1, hs4, funcs_copyFirstOutputMetadata, h2, h3]

/-- C1: for a function-call instruction whose callee's qualified name
contains both "torch.nn.functional" and "interpolate", the pass removes
input 0 (destroying its constant producer exactly when that removal leaves
it unused), creates exactly one new instruction of kind aten::__interpolate
wired to all remaining inputs and with the same number of outputs (and the
call's scope metadata), inserts it in the call's block, redirects every
remaining use of the call's outputs (node inputs and block returns) to the
new instruction's outputs, destroys the call instruction, and does not
recurse into the callee's body: the result is the same for every recursion
budget, fuel 0 included, and the function store is untouched. -/
theorem C1_interpolate_substitution (st : IRState) (bid : BlockId)
    (curId : NodeId) (cur0 : Node) (in0 cOut : ValueId) (rest : List ValueId)
    (f : FuncId)
    (hcur0 : alook st.nodes curId = some cur0)
    (hkind : cur0.kind = kCallFunction)
    (hins : cur0.inputs = in0 :: rest)
    (hconst : (getNode st (valProducer st in0)).kind = kConstant)
    (hcout : (getNode st (valProducer st in0)).outputs.head? = some cOut)
    (hft : valueType st cOut = IRType.functionType f)
    (hq1 : strContains (getFunc st f).qualname.qualifiedName "torch.nn.functional" = true)
    (hq2 : strContains (getFunc st f).qualname.qualifiedName "interpolate" = true)
    (hcc : valProducer st in0 ≠ curId)
    (hboundN : ∀ p ∈ st.nodes, p.1 < st.fresh)
    (hboundOut : ∀ v ∈ cur0.outputs, v < st.fresh)
    (hmem : curId ∈ (getBlock st cur0.owningBlock).nodes)
    (hnoself : ∀ v ∈ rest, v ∉ cur0.outputs) :
    ∃ st', (∀ fl : Nat, functionCallSubstitutionNode fl st bid curId = .ok st') ∧
      alook st'.nodes curId = none ∧
      curId ∉ (getBlock st' cur0.owningBlock).nodes ∧
      (getNode st' st.fresh).kind = kInterpolate ∧
      (getNode st' st.fresh).inputs = rest ∧
      (getNode st' st.fresh).outputs.length = cur0.outputs.length ∧
      (getNode st' st.fresh).scope = cur0.scope ∧
      st.fresh ∈ (getBlock st' cur0.owningBlock).nodes ∧
      (∀ id, alook st.nodes id = none → id ≠ st.fresh → alook st'.nodes id = none) ∧
      (∀ id nd, id ≠ curId → id ≠ valProducer st in0 → alook st.nodes id = some nd →
        alook st'.nodes id =
          some { nd with inputs := nd.inputs.map (interpSigma st cur0) }) ∧
      (∀ b br, alook st.blocks b = some br →
        ∃ br', alook st'.blocks b = some br' ∧
          br'.returns = br.returns.map (interpSigma st cur0)) ∧
      (nodeHasUses (removeInput0 st curId) (valProducer st in0) = false →
        alook st'.nodes (valProducer st in0) = none) ∧
      st'.funcs = st.funcs := by
  have hgn : getNode st curId = cur0 := getNode_of_alook _ _ _ hcur0
  have hcex : alook st.nodes (valProducer st in0) ≠ none := by
    intro h
    unfold getNode at hconst
    rw [h] at hconst
    exact absurd hconst (by decide)
  have hstep : ∀ fl : Nat, functionCallSubstitutionNode fl st bid curId
      = interpSubstitute st curId (valProducer st in0) := by
    intro fl
    rw [functionCallSubstitutionNode]
    dsimp only
    rw [hgn, if_pos hkind]
    simp only [hins]
    rw [if_neg (not_not_intro hconst)]
    simp only [hcout]
    rw [hft]
    dsimp only
    rw [if_pos ⟨hq1, hq2⟩]
  obtain ⟨st', hok, h1, h2, h3, h4, h5, h6, h7, h8, h9, h10, h11, h12⟩ :=
    interpSubstitute_spec st curId (valProducer st in0) cur0 hcur0 in0 rest hins
      hcc hcex hboundN hboundOut hmem hnoself
  exact ⟨st', fun fl => (hstep fl).trans hok,
    h1, h2, h3, h4, h5, h6, h7, h8, h9, h10, h11, h12⟩

/-- The call-instruction record of the C1 witness state. -/
def nodeCallI : Node :=
  { kind := "prim::CallFunction", inputs := [20, 21], outputs := [22],
    attrName := none, scope := [], subBlocks := [], owningBlock := 0 }

/-- State for the C1 witness: node 1 is a Constant producing the function
value 20 typed with the qualified name of torch.nn.functional.interpolate;
node 2 calls it on tensor value 21; the block returns the call's output. -/
def stI : IRState :=
  { graphs := [ (0, { blockId := 0, inputs := [21], currentScope := [] }) ],
    blocks := [ (0, { owningGraph := 0, nodes := [1, 2], returns := [22] }) ],
    nodes := [ (1, { kind := "prim::Constant", inputs := [], outputs := [20],
                     attrName := none, scope := [], subBlocks := [], owningBlock := 0 }),
               (2, nodeCallI) ],
    values := [ (20, { type := IRType.functionType 0, producer := 1 }),
                (21, { type := IRType.otherType, producer := 0 }),
                (22, { type := IRType.otherType, producer := 2 }) ],
    funcs := [ (0, { qualname := ⟨["__torch__", "torch", "nn", "functional", "interpolate"]⟩,
                     graphId := none }) ],
    fresh := 50 }

/-- C1 witness: the theorem at stI, read off at recursion budgets 0 and 7. -/
theorem C1_witness :
    ∃ st', functionCallSubstitutionNode 0 stI 0 2 = .ok st' ∧
      functionCallSubstitutionNode 7 stI 0 2 = .ok st' ∧
      alook st'.nodes 2 = none ∧
      (getNode st' 50).kind = kInterpolate ∧
      (getNode st' 50).inputs = [21] := by
  obtain ⟨st', hall, h1, _, h3, h4, _⟩ :=
    C1_interpolate_substitution stI 0 2 nodeCallI 20 20 [21] 0
      (by decide) (by decide) (by decide) (by decide) (by decide) (by decide)
      (by decide) (by decide) (by decide) (by decide) (by decide) (by decide)
      (by decide)
  exact ⟨st', hall 0, hall 7, h1, h3, h4⟩

/-! ## Splice and inline bookkeeping (claims C2 and C4) -/

theorem insertManyBefore_cons (y : NodeId) (ys : List NodeId) (b : NodeId)
    (ns : List NodeId) :
    insertManyBefore (y :: ys) b ns =
      if y = b then ns ++ y :: ys else y :: insertManyBefore ys b ns := rfl

theorem mem_insertManyBefore (l : List NodeId) (b : NodeId) (ns : List NodeId)
    (x : NodeId) :
    x ∈ insertManyBefore l b ns ↔ x ∈ l ∨ (b ∈ l ∧ x ∈ ns) := by
  induction l with
  | nil => simp [insertManyBefore]
  | cons y ys ih =>
    rw [insertManyBefore_cons]
    by_cases hy : y = b
    · rw [if_pos hy]
      subst hy
      constructor
      · intro h
        rcases List.mem_append.1 h with h | h
        · exact Or.inr ⟨List.mem_cons_self _ _, h⟩
        · exact Or.inl h
      · rintro (h | h)
        · exact List.mem_append.2 (Or.inr h)
        · exact List.mem_append.2 (Or.inl h.2)
    · rw [if_neg hy]
      simp only [List.mem_cons, ih]
      constructor
      · rintro (h | h | h)
        · exact Or.inl (Or.inl h)
        · exact Or.inl (Or.inr h)
        · exact Or.inr ⟨Or.inr h.1, h.2⟩
      · rintro ((h | h) | h)
        · exact Or.inl h
        · exact Or.inr (Or.inl h)
        · rcases h.1 with h1 | h1
          · exact absurd h1.symm hy
          · exact Or.inr (Or.inr ⟨h1, h.2⟩)

theorem spliceOne_fresh_le (t : BlockId)
    (acc : IRState × List (ValueId × ValueId) × List NodeId) (c : NodeId) :
    acc.1.fresh ≤ (spliceOne t acc c).1.fresh := by
  show acc.1.fresh ≤ acc.1.fresh + 1 + _
  exact Nat.le_trans (Nat.le_succ _) (Nat.le_add_right _ _)

theorem spliceOne_alook_lt (t : BlockId)
    (acc : IRState × List (ValueId × ValueId) × List NodeId) (c : NodeId)
    (id : NodeId) (h : id < acc.1.fresh) :
    alook (spliceOne t acc c).1.nodes id = alook acc.1.nodes id := by
  show alook ((acc.1.fresh, _) :: acc.1.nodes) id = _
  rw [alook_cons, if_neg (Nat.ne_of_gt h)]

theorem spliceFold_facts (t : BlockId) (cids : List NodeId) :
    ∀ acc : IRState × List (ValueId × ValueId) × List NodeId,
      acc.1.fresh ≤ (cids.foldl (spliceOne t) acc).1.fresh ∧
      (cids.foldl (spliceOne t) acc).1.blocks = acc.1.blocks ∧
      (cids.foldl (spliceOne t) acc).1.funcs = acc.1.funcs ∧
      (∀ id, id < acc.1.fresh →
        alook (cids.foldl (spliceOne t) acc).1.nodes id = alook acc.1.nodes id) := by
  induction cids with
  | nil => exact fun acc => ⟨Nat.le_refl _, rfl, rfl, fun _ _ => rfl⟩
  | cons c cs ih =>
    intro acc
    rw [List.foldl_cons]
    rcases ih (spliceOne t acc c) with ⟨hf, hb, hfu, ha⟩
    refine ⟨Nat.le_trans (spliceOne_fresh_le t acc c) hf, hb.trans rfl, hfu.trans rfl, ?_⟩
    intro id hid
    rw [ha id (Nat.lt_of_lt_of_le hid (spliceOne_fresh_le t acc c))]
    exact spliceOne_alook_lt t acc c id hid

/-! ## The inlining contract (claim C2) -/

/-- The values that stand for the callee's returned values after splicing:
the substitution accumulated by `spliceNodes` applied to the callee block's
returns. -/
def inlineRets (st : IRState) (curId : NodeId) (calleeGid : GraphId) :
    List ValueId :=
  let cur := getNode st curId
  let g := getGraph st calleeGid
  let cb := getBlock st g.blockId
  cb.returns.map (substPairs
    (spliceNodes st cb.nodes cur.owningBlock (g.inputs.zip cur.inputs)).2.1)

/-- The fresh ids of the spliced copies of the callee's instructions. -/
def inlineIds (st : IRState) (curId : NodeId) (calleeGid : GraphId) :
    List NodeId :=
  let cur := getNode st curId
  let g := getGraph st calleeGid
  let cb := getBlock st g.blockId
  (spliceNodes st cb.nodes cur.owningBlock (g.inputs.zip cur.inputs)).2.2

theorem spliceNodes_eq_foldl (st : IRState) (cids : List NodeId) (t : BlockId)
    (sub0 : List (ValueId × ValueId)) :
    spliceNodes st cids t sub0 = cids.foldl (spliceOne t) (st, sub0, []) := rfl

theorem nodes_aupdateBlock (st : IRState) (b : BlockId) (f : BlockRec → BlockRec) :
    (aupdateBlock st b f).nodes = st.nodes := rfl

theorem blocks_aupdateBlock (st : IRState) (b : BlockId) (f : BlockRec → BlockRec) :
    (aupdateBlock st b f).blocks = aupdate st.blocks b f := rfl

theorem not_mem_filter_self (l : List NodeId) (n : NodeId) :
    n ∉ l.filter fun x => ¬ x = n := by
  intro h
  have := (List.mem_filter.1 h).2
  simp at this

/-- What a successful `inlineCallTo` does: the arity contracts held, the call
is gone from the store and from its block, the spliced copies sit at the
call's position, and every surviving instruction's inputs are redirected
from the call's outputs to the spliced returned values. -/
theorem inlineCallTo_ok_spec (st : IRState) (curId : NodeId) (gid : GraphId)
    (cur0 : Node) (st' : IRState)
    (hcur : alook st.nodes curId = some cur0)
    (hbnd : ∀ p ∈ st.nodes, p.1 < st.fresh)
    (hok : inlineCallTo st curId gid = .ok st') :
    cur0.inputs.length = (getGraph st gid).inputs.length ∧
    cur0.outputs.length = (getBlock st (getGraph st gid).blockId).returns.length ∧
    alook st'.nodes curId = none ∧
    curId ∉ (getBlock st' cur0.owningBlock).nodes ∧
    (getBlock st' cur0.owningBlock).nodes =
      (insertManyBefore (getBlock st cur0.owningBlock).nodes curId
        (inlineIds st curId gid)).filter (fun x => ¬ x = curId) ∧
    (∀ id nd, id ≠ curId → alook st.nodes id = some nd →
      alook st'.nodes id =
        some { nd with inputs :=
          nd.inputs.map (substVal cur0.outputs (inlineRets st curId gid)) }) ∧
    (∀ b br, alook st.blocks b = some br →
      ∃ br', alook st'.blocks b = some br' ∧
        br'.returns = br.returns.map
          (substVal cur0.outputs (inlineRets st curId gid))) := by
  have hcurlt : curId < st.fresh := hbnd _ (alook_some_mem _ _ _ hcur)
  unfold inlineCallTo at hok
  dsimp only at hok
  rw [getNode_of_alook st curId cur0 hcur] at hok
  by_cases h1 : cur0.inputs.length ≠ (getGraph st gid).inputs.length
  · rw [if_pos h1] at hok
    cases hok
  rw [if_neg h1] at hok
  by_cases h2 : cur0.outputs.length ≠
      (getBlock st (getGraph st gid).blockId).returns.length
  · rw [if_pos h2] at hok
    cases hok
  rw [if_neg h2] at hok
  set spl := spliceNodes st (getBlock st (getGraph st gid).blockId).nodes
    cur0.owningBlock ((getGraph st gid).inputs.zip cur0.inputs) with hspl
  set st1 := spl.1 with hst1
  set st2 := aupdateBlock st1 cur0.owningBlock (fun br =>
    { br with nodes := insertManyBefore br.nodes curId spl.2.2 }) with hst2
  set rets := (getBlock st (getGraph st gid).blockId).returns.map
    (substPairs spl.2.1) with hrets
  set st3 := replaceAllUsesWith st2 cur0.outputs rets with hst3
  unfold destroyNode at hok
  split at hok
  · cases hok
  injection hok with hok'
  have hfold := spliceFold_facts cur0.owningBlock
    (getBlock st (getGraph st gid).blockId).nodes
    (st, (getGraph st gid).inputs.zip cur0.inputs, [])
  rw [← spliceNodes_eq_foldl, ← hspl] at hfold
  dsimp only at hfold
  have hblocks1 : st1.blocks = st.blocks := hfold.2.1
  have halook1 : ∀ id, id < st.fresh → alook st1.nodes id = alook st.nodes id :=
    hfold.2.2.2
  have hcur1 : alook st1.nodes curId = some cur0 := by
    rw [halook1 curId hcurlt, hcur]
  have amapN : ∀ k, alook st3.nodes k = (alook st2.nodes k).map
      (fun nd => { nd with inputs := nd.inputs.map (substVal cur0.outputs rets) }) := by
    intro k
    rw [hst3, nodes_replaceAllUsesWith]
    exact alook_map_snd st2.nodes
      (fun nd => { nd with inputs := nd.inputs.map (substVal cur0.outputs rets) }) k
  have amapB : ∀ b, alook st3.blocks b = (alook st2.blocks b).map
      (fun br => { br with returns := br.returns.map (substVal cur0.outputs rets) }) := by
    intro b
    rw [hst3, blocks_replaceAllUsesWith]
    exact alook_map_snd st2.blocks
      (fun br => { br with returns := br.returns.map (substVal cur0.outputs rets) }) b
  have hcur3 : alook st3.nodes curId =
      some { cur0 with inputs := cur0.inputs.map (substVal cur0.outputs rets) } := by
    rw [amapN curId, hst2, nodes_aupdateBlock, hcur1]
    rfl
  have howning3 : (getNode st3 curId).owningBlock = cur0.owningBlock := by
    rw [getNode_of_alook st3 curId _ hcur3]
  have hids : inlineIds st curId gid = spl.2.2 := by
    unfold inlineIds
    dsimp only
    rw [getNode_of_alook st curId cur0 hcur, ← hspl]
  have hrets2 : inlineRets st curId gid = rets := by
    unfold inlineRets
    dsimp only
    rw [getNode_of_alook st curId cur0 hcur, ← hspl, hrets]
  have hgb' : (getBlock (removeNodeRaw st3 curId) cur0.owningBlock).nodes =
      (insertManyBefore (getBlock st cur0.owningBlock).nodes curId spl.2.2).filter
        (fun x => ¬ x = curId) := by
    unfold getBlock
    rw [blocks_removeNodeRaw, howning3, alook_aupdate_eq, amapB]
    rw [hst2, blocks_aupdateBlock, alook_aupdate_eq]
    rw [hblocks1]
    cases hB : alook st.blocks cur0.owningBlock with
    | none => rfl
    | some br => rfl
  rw [← hok']
  refine ⟨not_ne_iff.mp h1, not_ne_iff.mp h2, ?_, ?_, ?_, ?_, ?_⟩
  · rw [nodes_removeNodeRaw]
    exact alook_filter_self _ _
  · rw [hgb']
    exact not_mem_filter_self _ _
  · rw [hgb', hids]
  · intro id nd hne hid
    have hlt : id < st.fresh := hbnd _ (alook_some_mem _ _ _ hid)
    rw [nodes_removeNodeRaw, alook_filter_ne _ _ _ hne]
    rw [amapN, hst2, nodes_aupdateBlock, halook1 id hlt, hid, hrets2]
    rfl
  · intro b br hb
    rw [hrets2]
    by_cases hbB : b = cur0.owningBlock
    · subst hbB
      rw [blocks_removeNodeRaw, howning3, alook_aupdate_eq, amapB]
      rw [hst2, blocks_aupdateBlock, alook_aupdate_eq, hblocks1, hb]
      exact ⟨_, rfl, rfl⟩
    · rw [blocks_removeNodeRaw, howning3, alook_aupdate_ne _ _ _ _ hbB, amapB]
      rw [hst2, blocks_aupdateBlock, alook_aupdate_ne _ _ _ _ hbB, hblocks1, hb]
      exact ⟨_, rfl, rfl⟩

theorem funcs_removeInput0 (st : IRState) (n : NodeId) :
    (removeInput0 st n).funcs = st.funcs := rfl

theorem withGraphScope_congr (st : IRState) (g : GraphId) (s : ScopePath)
    (a b : IRState → PRes)
    (h : a (setGraphScope st g s) = b (setGraphScope st g s)) :
    withGraphScope st g s a = withGraphScope st g s b := by
  unfold withGraphScope
  rw [h]

/-- The step equation of the generic CallFunction branch (source lines
119-129): detach input 0 (conditionally destroying its producer), then
recurse over the callee graph's body, then inline. -/
theorem functionCallSubstitutionNode_cf_eq (st : IRState) (bid : BlockId)
    (curId : NodeId) (cur0 : Node) (fuel : Nat) (in0 cOut : ValueId)
    (tl : List ValueId) (f : FuncId) (cg : GraphId)
    (hcur : alook st.nodes curId = some cur0)
    (hkind : cur0.kind = kCallFunction)
    (hins : cur0.inputs = in0 :: tl)
    (hconst : (getNode st (valProducer st in0)).kind = kConstant)
    (hcout : (getNode st (valProducer st in0)).outputs.head? = some cOut)
    (hft : valueType st cOut = IRType.functionType f)
    (hnotq : ¬ (strContains (getFunc st f).qualname.qualifiedName
        "torch.nn.functional" ∧
      strContains (getFunc st f).qualname.qualifiedName "interpolate"))
    (hcg : (getFunc st f).graphId = some cg) :
    functionCallSubstitutionNode (fuel + 1) st bid curId =
      (functionCallSubstitution fuel
          (destroyIfUnused (removeInput0 st curId) (valProducer st in0))
          (getGraph (destroyIfUnused (removeInput0 st curId) (valProducer st in0))
            cg).blockId).bind
        fun st3 => inlineCallTo st3 curId cg := by
  have hgn : getNode st curId = cur0 := getNode_of_alook _ _ _ hcur
  rw [functionCallSubstitutionNode]
  dsimp only
  rw [hgn, if_pos hkind]
  simp only [hins]
  rw [if_neg (not_not_intro hconst)]
  simp only [hcout]
  rw [hft]
  dsimp only
  rw [if_neg hnotq]
  have hf2 : (getFunc (destroyIfUnused (removeInput0 st curId)
      (valProducer st in0)) f).graphId = some cg := by
    unfold getFunc
    rw [funcs_destroyIfUnused, funcs_removeInput0]
    exact hcg
  rw [hf2]

/-- The step equation of the resolvable CallMethod branch (source lines
131-142): push the call's scope label on the caller graph, copy the
caller's current scope onto the callee graph, recurse over the callee's
body and inline, restoring both scopes afterwards. -/
theorem functionCallSubstitutionNode_cm_eq (st : IRState) (bid : BlockId)
    (curId : NodeId) (cur0 : Node) (fuel : Nat) (m sn : String) (in0 : ValueId)
    (tl : List ValueId) (qn : Option QualifiedName) (ms : List (String × FuncId))
    (f : FuncId) (cg : GraphId)
    (hcur : alook st.nodes curId = some cur0)
    (hkind : cur0.kind = kCallMethod)
    (hattr : cur0.attrName = some m)
    (hins : cur0.inputs = in0 :: tl)
    (hvt : valueType st in0 = IRType.classType qn ms)
    (hms : alookStr ms m = some f)
    (hsn : SetScopeGuardScopeName (fuel + 1) st curId = .ok sn)
    (hcg : (getFunc st f).graphId = some cg) :
    functionCallSubstitutionNode (fuel + 1) st bid curId =
      withGraphScope st ((getBlock st bid).owningGraph)
        (getGraphScope st ((getBlock st bid).owningGraph) ++ [sn]) fun stA =>
        withGraphScope stA cg
          (getGraphScope stA ((getBlock st bid).owningGraph)) fun stB =>
          (functionCallSubstitution fuel stB (getGraph stB cg).blockId).bind
            fun stC => inlineCallTo stC curId cg := by
  have hgn : getNode st curId = cur0 := getNode_of_alook _ _ _ hcur
  have hkcf : ¬ cur0.kind = kCallFunction := by
    rw [hkind]
    decide
  rw [functionCallSubstitutionNode]
  dsimp only
  rw [hgn, if_neg hkcf, if_pos hkind]
  rw [hattr]
  simp only [hins]
  rw [hvt]
  dsimp only
  rw [hms, hsn]
  dsimp only
  apply withGraphScope_congr
  have hfA : (getFunc (setGraphScope st ((getBlock st bid).owningGraph)
      (getGraphScope st ((getBlock st bid).owningGraph) ++ [sn])) f).graphId
      = some cg := by
    rw [getFunc_setGraphScope]
    exact hcg
  rw [hfA]

/-- **C2.** A function call whose callee is not the interpolate special case,
and a method call whose receiver resolves to a class type with a resolvable
method, are processed bottom-up: the step is exactly "recursively run the
whole substitution over the callee graph's body, then `inlineCallTo`" (for
a method call, under the two pushed scopes); and every successful
`inlineCallTo` removes the call from the store and from its block and
redirects every use of its `k` outputs — node inputs and block returns
alike — to the spliced callee's returned values (`inlineRets`). -/
theorem C2_generic_inline (st : IRState) (bid : BlockId) (curId : NodeId)
    (cur0 : Node) (hcur : alook st.nodes curId = some cur0) :
    (∀ (fuel : Nat) (in0 cOut : ValueId) (tl : List ValueId) (f : FuncId)
        (cg : GraphId),
      cur0.kind = kCallFunction →
      cur0.inputs = in0 :: tl →
      (getNode st (valProducer st in0)).kind = kConstant →
      (getNode st (valProducer st in0)).outputs.head? = some cOut →
      valueType st cOut = IRType.functionType f →
      ¬ (strContains (getFunc st f).qualname.qualifiedName "torch.nn.functional" ∧
         strContains (getFunc st f).qualname.qualifiedName "interpolate") →
      (getFunc st f).graphId = some cg →
      functionCallSubstitutionNode (fuel + 1) st bid curId =
        (functionCallSubstitution fuel
            (destroyIfUnused (removeInput0 st curId) (valProducer st in0))
            (getGraph (destroyIfUnused (removeInput0 st curId) (valProducer st in0))
              cg).blockId).bind
          fun st3 => inlineCallTo st3 curId cg) ∧
    (∀ (fuel : Nat) (m sn : String) (in0 : ValueId) (tl : List ValueId)
        (qn : Option QualifiedName) (ms : List (String × FuncId)) (f : FuncId)
        (cg : GraphId),
      cur0.kind = kCallMethod →
      cur0.attrName = some m →
      cur0.inputs = in0 :: tl →
      valueType st in0 = IRType.classType qn ms →
      alookStr ms m = some f →
      SetScopeGuardScopeName (fuel + 1) st curId = .ok sn →
      (getFunc st f).graphId = some cg →
      functionCallSubstitutionNode (fuel + 1) st bid curId =
        withGraphScope st ((getBlock st bid).owningGraph)
          (getGraphScope st ((getBlock st bid).owningGraph) ++ [sn]) fun stA =>
          withGraphScope stA cg
            (getGraphScope stA ((getBlock st bid).owningGraph)) fun stB =>
            (functionCallSubstitution fuel stB (getGraph stB cg).blockId).bind
              fun stC => inlineCallTo stC curId cg) ∧
    (∀ (S S' : IRState) (g : GraphId) (cur1 : Node),
      alook S.nodes curId = some cur1 →
      (∀ p ∈ S.nodes, p.1 < S.fresh) →
      inlineCallTo S curId g = .ok S' →
      cur1.outputs.length = (getBlock S (getGraph S g).blockId).returns.length ∧
      alook S'.nodes curId = none ∧
      curId ∉ (getBlock S' cur1.owningBlock).nodes ∧
      (∀ id nd, id ≠ curId → alook S.nodes id = some nd →
        alook S'.nodes id =
          some { nd with inputs :=
            nd.inputs.map (substVal cur1.outputs (inlineRets S curId g)) }) ∧
      (∀ b br, alook S.blocks b = some br →
        ∃ br', alook S'.blocks b = some br' ∧
          br'.returns = br.returns.map
            (substVal cur1.outputs (inlineRets S curId g)))) := by
  refine ⟨?_, ?_, ?_⟩
  · intro fuel in0 cOut tl f cg hkind hins hconst hcout hft hnotq hcg
    exact functionCallSubstitutionNode_cf_eq st bid curId cur0 fuel in0 cOut tl
      f cg hcur hkind hins hconst hcout hft hnotq hcg
  · intro fuel m sn in0 tl qn ms f cg hkind hattr hins hvt hms hsn hcg
    exact functionCallSubstitutionNode_cm_eq st bid curId cur0 fuel m sn in0 tl
      qn ms f cg hcur hkind hattr hins hvt hms hsn hcg
  · intro S S' g cur1 hc hbnd hok
    obtain ⟨_, h2, h3, h4, _, h6, h7⟩ :=
      inlineCallTo_ok_spec S curId g cur1 S' hc hbnd hok
    exact ⟨h2, h3, h4, h6, h7⟩

/-- The call-instruction record of the C2 witness state. -/
def nodeCallG : Node :=
  { kind := "prim::CallFunction", inputs := [20, 21], outputs := [22],
    attrName := none, scope := [], subBlocks := [], owningBlock := 0 }

/-- State for the C2 witness: node 1 is a Constant producing the function
value 20 typed with an ordinary qualified name; node 2 calls it on value 21;
the callee graph 1 holds one `aten::relu` instruction over its parameter. -/
def stG : IRState :=
  { graphs := [ (0, { blockId := 0, inputs := [21], currentScope := [] }),
                (1, { blockId := 1, inputs := [30], currentScope := [] }) ],
    blocks := [ (0, { owningGraph := 0, nodes := [1, 2], returns := [22] }),
                (1, { owningGraph := 1, nodes := [3], returns := [31] }) ],
    nodes := [ (1, { kind := "prim::Constant", inputs := [], outputs := [20],
                     attrName := none, scope := [], subBlocks := [], owningBlock := 0 }),
               (2, nodeCallG),
               (3, { kind := "aten::relu", inputs := [30], outputs := [31],
                     attrName := none, scope := [], subBlocks := [], owningBlock := 1 }) ],
    values := [ (20, { type := IRType.functionType 0, producer := 1 }),
                (21, { type := IRType.otherType, producer := 0 }),
                (22, { type := IRType.otherType, producer := 2 }),
                (30, { type := IRType.otherType, producer := 0 }),
                (31, { type := IRType.otherType, producer := 3 }) ],
    funcs := [ (0, { qualname := ⟨["__torch__", "pkg", "plainfn"]⟩,
                     graphId := some 1 }) ],
    fresh := 50 }

/-- C2 witness: the recursion-then-inline equation at stG, and a successful
concrete inline that removed the call. -/
theorem C2_witness :
    (functionCallSubstitutionNode 1 stG 0 2 =
      (functionCallSubstitution 0
          (destroyIfUnused (removeInput0 stG 2) (valProducer stG 20))
          (getGraph (destroyIfUnused (removeInput0 stG 2) (valProducer stG 20))
            1).blockId).bind
        fun st3 => inlineCallTo st3 2 1) ∧
    (∃ S', inlineCallTo (destroyIfUnused (removeInput0 stG 2) 1) 2 1 = .ok S' ∧
      alook S'.nodes 2 = none ∧ 2 ∉ (getBlock S' 0).nodes) := by
  obtain ⟨p1, _, p3⟩ := C2_generic_inline stG 0 2 nodeCallG (by decide)
  constructor
  · exact p1 0 20 20 [21] 0 1 (by decide) (by decide) (by decide) (by decide)
      (by decide) (by decide) (by decide)
  · have hconc : ∃ S', inlineCallTo (destroyIfUnused (removeInput0 stG 2) 1) 2 1
        = .ok S' := ⟨_, rfl⟩
    obtain ⟨S', hok⟩ := hconc
    obtain ⟨_, h2, h3, _⟩ := p3 (destroyIfUnused (removeInput0 stG 2) 1) S' 1
      { nodeCallG with inputs := [21] } (by decide) (by decide) hok
    exact ⟨S', hok, h2, h3⟩

/-! ## Scope stamping machinery (claim C4) -/

theorem isEmpty_append_singleton (l : ScopePath) (x : String) :
    (l ++ [x]).isEmpty = false := by
  cases l <;> rfl

theorem aupdate_keys {α : Type} (l : List (Nat × α)) (k : Nat) (f : α → α) :
    (aupdate l k f).map Prod.fst = l.map Prod.fst := by
  induction l with
  | nil => rfl
  | cons p ps ih =>
    rw [aupdate_cons]
    by_cases hp : p.1 = k
    · rw [if_pos hp]
      simp only [List.map_cons, ih]
    · rw [if_neg hp]
      simp only [List.map_cons, ih]

theorem nodes_setNodeScope (st : IRState) (n : NodeId) (s : ScopePath) :
    (setNodeScope st n s).nodes =
      aupdate st.nodes n (fun nd => { nd with scope := s }) := rfl

theorem scope_map_idem (o : Option Node) (sc : ScopePath) :
    ((o.map fun nd => { nd with scope := sc }).map
      fun nd => { nd with scope := sc }) = o.map fun nd => { nd with scope := sc } := by
  cases o <;> rfl

/-- The default switch case on a plain instruction (no sub-blocks, not a
call): stamp it with the graph's current scope when that is non-blank. -/
theorem plain_node_step (fuel : Nat) (st : IRState) (bid : BlockId) (n : NodeId)
    (hkcf : ¬ (getNode st n).kind = kCallFunction)
    (hkcm : ¬ (getNode st n).kind = kCallMethod)
    (hsb : (getNode st n).subBlocks = []) :
    functionCallSubstitutionNode fuel st bid n =
      .ok (if (getGraphScope st ((getBlock st bid).owningGraph)).isEmpty then st
           else setNodeScope st n (getGraphScope st ((getBlock st bid).owningGraph))) := by
  rw [functionCallSubstitutionNode]
  dsimp only
  rw [if_neg hkcf, if_neg hkcm, hsb]
  rfl

/-- Running the substitution loop over a worklist of plain in-block
instructions stamps every one of them with the ambient scope (when that is
non-blank) and changes nothing else. -/
theorem loop_plain (fuel : Nat) (bid : BlockId) :
    ∀ (wl : List NodeId) (st : IRState),
      (∀ n ∈ wl,
        ¬ (getNode st n).kind = kCallFunction ∧
        ¬ (getNode st n).kind = kCallMethod ∧
        (getNode st n).subBlocks = [] ∧
        n ∈ (getBlock st bid).nodes) →
      (getGraphScope st ((getBlock st bid).owningGraph)).isEmpty = false →
      ∃ st', functionCallSubstitutionLoop fuel st bid wl = .ok st' ∧
        st'.blocks = st.blocks ∧ st'.graphs = st.graphs ∧
        st'.values = st.values ∧ st'.funcs = st.funcs ∧ st'.fresh = st.fresh ∧
        st'.nodes.map Prod.fst = st.nodes.map Prod.fst ∧
        (∀ k, alook st'.nodes k = alook st.nodes k ∨
          alook st'.nodes k = (alook st.nodes k).map
            (fun nd => { nd with
              scope := getGraphScope st ((getBlock st bid).owningGraph) })) ∧
        (∀ n ∈ wl, alook st'.nodes n = (alook st.nodes n).map
          (fun nd => { nd with
            scope := getGraphScope st ((getBlock st bid).owningGraph) })) := by
  intro wl
  induction wl with
  | nil =>
    intro st _ _
    refine ⟨st, ?_, rfl, rfl, rfl, rfl, rfl, rfl, fun k => Or.inl rfl, ?_⟩
    · rw [functionCallSubstitutionLoop]
    · intro n hn
      cases hn
  | cons n rest ih =>
    intro st hp hne
    obtain ⟨hkcf, hkcm, hsb, hmem⟩ := hp n (List.mem_cons_self _ _)
    have hcont : (getBlock st bid).nodes.contains n = true := by
      simpa using hmem
    have hnif : ¬ ((getGraphScope st ((getBlock st bid).owningGraph)).isEmpty = true) := by
      rw [hne]
      exact Bool.false_ne_true
    have hstep : functionCallSubstitutionNode fuel st bid n =
        .ok (setNodeScope st n (getGraphScope st ((getBlock st bid).owningGraph))) := by
      rw [plain_node_step fuel st bid n hkcf hkcm hsb, if_neg hnif]
    have h1look : ∀ k,
        alook (setNodeScope st n (getGraphScope st ((getBlock st bid).owningGraph))).nodes k =
          if k = n then
            (alook st.nodes k).map (fun nd => { nd with
              scope := getGraphScope st ((getBlock st bid).owningGraph) })
          else alook st.nodes k := by
      intro k
      rw [nodes_setNodeScope]
      by_cases hk : k = n
      · subst hk
        rw [if_pos rfl]
        exact alook_aupdate_eq _ _ _
      · rw [if_neg hk]
        exact alook_aupdate_ne _ _ _ _ hk
    have hp1 : ∀ k ∈ rest,
        ¬ (getNode (setNodeScope st n (getGraphScope st ((getBlock st bid).owningGraph))) k).kind
            = kCallFunction ∧
        ¬ (getNode (setNodeScope st n (getGraphScope st ((getBlock st bid).owningGraph))) k).kind
            = kCallMethod ∧
        (getNode (setNodeScope st n (getGraphScope st ((getBlock st bid).owningGraph))) k).subBlocks
            = [] ∧
        k ∈ (getBlock (setNodeScope st n (getGraphScope st ((getBlock st bid).owningGraph)))
            bid).nodes := by
      intro k hk
      obtain ⟨c1, c2, c3, c4⟩ := hp k (List.mem_cons_of_mem _ hk)
      have hkn : getNode (setNodeScope st n (getGraphScope st ((getBlock st bid).owningGraph))) k
          = getNode st k ∨
          getNode (setNodeScope st n (getGraphScope st ((getBlock st bid).owningGraph))) k
          = { getNode st k with scope := getGraphScope st ((getBlock st bid).owningGraph) } := by
        unfold getNode
        rw [h1look k]
        by_cases hk2 : k = n
        · rw [if_pos hk2]
          cases alook st.nodes k with
          | none => exact Or.inl rfl
          | some nd => exact Or.inr rfl
        · rw [if_neg hk2]
          exact Or.inl rfl
      rcases hkn with h | h <;> rw [h]
      · exact ⟨c1, c2, c3, c4⟩
      · exact ⟨c1, c2, c3, c4⟩
    obtain ⟨st', hloop, hb, hg, hv, hf, hfr, hkeys, hchar, hwl⟩ :=
      ih (setNodeScope st n (getGraphScope st ((getBlock st bid).owningGraph))) hp1 hne
    refine ⟨st', ?_, hb, hg, hv, hf, hfr, ?_, ?_, ?_⟩
    · rw [functionCallSubstitutionLoop, if_pos hcont, hstep]
      exact hloop
    · rw [hkeys, nodes_setNodeScope]
      exact aupdate_keys _ _ _
    · intro k
      rcases hchar k with h | h <;> rw [h, h1look k]
      · by_cases hk : k = n
        · rw [if_pos hk]
          exact Or.inr rfl
        · rw [if_neg hk]
          exact Or.inl rfl
      · by_cases hk : k = n
        · rw [if_pos hk]
          exact Or.inr (scope_map_idem _ _)
        · rw [if_neg hk]
          exact Or.inr rfl
    · intro k hk
      rcases List.mem_cons.mp hk with hk1 | hk1
      · subst hk1
        rcases hchar k with h | h <;> rw [h, h1look k, if_pos rfl]
        exact scope_map_idem _ _
      · have := hwl k hk1
        rw [this, h1look k]
        by_cases hk2 : k = n
        · rw [if_pos hk2]
          exact scope_map_idem _ _
        · rw [if_neg hk2]
          rfl

/-- Every id the splice fold emits is either inherited from the accumulator
or is a fresh copy of one of the spliced source instructions, carrying that
source instruction's scope. -/
theorem spliceFold_scope (t : BlockId) :
    ∀ (cids : List NodeId) (acc : IRState × List (ValueId × ValueId) × List NodeId),
      (∀ cid ∈ cids, cid < acc.1.fresh) →
      ∀ nid ∈ (cids.foldl (spliceOne t) acc).2.2,
        nid ∈ acc.2.2 ∨
          (acc.1.fresh ≤ nid ∧ ∃ cid ∈ cids, ∃ nd,
            alook (cids.foldl (spliceOne t) acc).1.nodes nid = some nd ∧
            nd.scope = (getNode acc.1 cid).scope) := by
  intro cids
  induction cids with
  | nil =>
    intro acc _ nid hnid
    exact Or.inl hnid
  | cons c cs ih =>
    intro acc hb nid hnid
    rw [List.foldl_cons] at hnid
    have hb' : ∀ cid ∈ cs, cid < (spliceOne t acc c).1.fresh := fun cid hcid =>
      Nat.lt_of_lt_of_le (hb cid (List.mem_cons_of_mem _ hcid))
        (spliceOne_fresh_le t acc c)
    have hgetpres : ∀ cid, cid < acc.1.fresh →
        getNode (spliceOne t acc c).1 cid = getNode acc.1 cid := by
      intro cid hcid
      unfold getNode
      rw [spliceOne_alook_lt t acc c cid hcid]
    rcases ih (spliceOne t acc c) hb' nid hnid with h | ⟨hge, cid, hcid, nd, hnd, hsc⟩
    · have hacc2 : (spliceOne t acc c).2.2 = acc.2.2 ++ [acc.1.fresh] := rfl
      rw [hacc2] at h
      rcases List.mem_append.1 h with h1 | h1
      · exact Or.inl h1
      · have hnidf : nid = acc.1.fresh := by
          cases h1 with
          | head => rfl
          | tail _ hh => cases hh
        subst hnidf
        refine Or.inr ⟨Nat.le_refl _, c, List.mem_cons_self _ _, ?_⟩
        have hlook : alook (spliceOne t acc c).1.nodes acc.1.fresh =
            some { getNode acc.1 c with
              inputs := (getNode acc.1 c).inputs.map (substPairs acc.2.1),
              outputs := (List.range (getNode acc.1 c).outputs.length).map
                (fun i => acc.1.fresh + 1 + i),
              owningBlock := t } := by
          show alook ((acc.1.fresh, _) :: acc.1.nodes) acc.1.fresh = _
          rw [alook_cons, if_pos rfl]
        have hpres := (spliceFold_facts t cs (spliceOne t acc c)).2.2.2 acc.1.fresh
          (Nat.lt_of_lt_of_le (Nat.lt_of_lt_of_le (Nat.lt_succ_self _)
            (Nat.le_add_right _ _)) (Nat.le_refl _))
        rw [List.foldl_cons, hpres, hlook]
        exact ⟨_, rfl, rfl⟩
    · refine Or.inr ⟨Nat.le_trans (spliceOne_fresh_le t acc c) hge, cid,
        List.mem_cons_of_mem _ hcid, nd, ?_, ?_⟩
      · rw [List.foldl_cons]
        exact hnd
      · rw [hsc, hgetpres cid (hb cid (List.mem_cons_of_mem _ hcid))]

/-- Instructions that a successful `inlineCallTo` adds to the call's block
are copies of the callee block's instructions and keep those instructions'
scopes: if every callee instruction carries scope `sc`, so does every
instruction newly present in the call's block. -/
theorem inlineCallTo_new_scope (st : IRState) (curId : NodeId) (gid : GraphId)
    (cur0 : Node) (st' : IRState) (sc : ScopePath)
    (hcur : alook st.nodes curId = some cur0)
    (hbnd : ∀ p ∈ st.nodes, p.1 < st.fresh)
    (hbndB : ∀ cid ∈ (getBlock st (getGraph st gid).blockId).nodes, cid < st.fresh)
    (hsc : ∀ cid ∈ (getBlock st (getGraph st gid).blockId).nodes,
      (getNode st cid).scope = sc)
    (hok : inlineCallTo st curId gid = .ok st') :
    ∀ n ∈ (getBlock st' cur0.owningBlock).nodes,
      n ∉ (getBlock st cur0.owningBlock).nodes →
      (getNode st' n).scope = sc := by
  obtain ⟨_, _, _, _, hblk, _, _⟩ :=
    inlineCallTo_ok_spec st curId gid cur0 st' hcur hbnd hok
  intro n hn hnold
  rw [hblk] at hn
  have hfil := List.mem_filter.1 hn
  have hne : ¬ n = curId := by simpa using hfil.2
  have hnids : n ∈ inlineIds st curId gid := by
    rcases (mem_insertManyBefore _ _ _ _).1 hfil.1 with h | h
    · exact absurd h hnold
    · exact h.2
  have hcurlt : curId < st.fresh := hbnd _ (alook_some_mem _ _ _ hcur)
  unfold inlineCallTo at hok
  dsimp only at hok
  rw [getNode_of_alook st curId cur0 hcur] at hok
  by_cases h1 : cur0.inputs.length ≠ (getGraph st gid).inputs.length
  · rw [if_pos h1] at hok
    cases hok
  rw [if_neg h1] at hok
  by_cases h2 : cur0.outputs.length ≠
      (getBlock st (getGraph st gid).blockId).returns.length
  · rw [if_pos h2] at hok
    cases hok
  rw [if_neg h2] at hok
  set spl := spliceNodes st (getBlock st (getGraph st gid).blockId).nodes
    cur0.owningBlock ((getGraph st gid).inputs.zip cur0.inputs) with hspl
  set st1 := spl.1 with hst1
  set st2 := aupdateBlock st1 cur0.owningBlock (fun br =>
    { br with nodes := insertManyBefore br.nodes curId spl.2.2 }) with hst2
  set rets := (getBlock st (getGraph st gid).blockId).returns.map
    (substPairs spl.2.1) with hrets
  set st3 := replaceAllUsesWith st2 cur0.outputs rets with hst3
  unfold destroyNode at hok
  split at hok
  · cases hok
  injection hok with hok'
  have hids : inlineIds st curId gid = spl.2.2 := by
    unfold inlineIds
    dsimp only
    rw [getNode_of_alook st curId cur0 hcur, ← hspl]
  rw [hids] at hnids
  have hsplit := spliceFold_scope cur0.owningBlock
    (getBlock st (getGraph st gid).blockId).nodes
    (st, (getGraph st gid).inputs.zip cur0.inputs, []) hbndB
  rw [← spliceNodes_eq_foldl, ← hspl] at hsplit
  dsimp only at hsplit
  rcases hsplit n hnids with h | ⟨hge, cid, hcid, nd, hnd, hndsc⟩
  · cases h
  have amapN : ∀ k, alook st3.nodes k = (alook st2.nodes k).map
      (fun x => { x with inputs := x.inputs.map (substVal cur0.outputs rets) }) := by
    intro k
    rw [hst3, nodes_replaceAllUsesWith]
    exact alook_map_snd st2.nodes
      (fun x => { x with inputs := x.inputs.map (substVal cur0.outputs rets) }) k
  rw [← hok']
  unfold getNode
  rw [nodes_removeNodeRaw, alook_filter_ne _ _ _ hne]
  rw [amapN n, hst2, nodes_aupdateBlock]
  rw [← hst1] at hnd
  rw [hnd]
  show nd.scope = sc
  rw [hndsc]
  exact hsc cid hcid

theorem alook_graphs_setGraphScope (st : IRState) (g : GraphId) (s : ScopePath)
    (j : GraphId) :
    alook (setGraphScope st g s).graphs j =
      if j = g then (alook st.graphs j).map (fun gr => { gr with currentScope := s })
      else alook st.graphs j := by
  by_cases hj : j = g
  · subst hj
    rw [setGraphScope_currentScope_eq, if_pos rfl]
  · rw [setGraphScope_currentScope_ne _ _ _ _ hj, if_neg hj]

theorem getGraphScope_set_eq (st : IRState) (g : GraphId) (s : ScopePath)
    (gr : Graph) (h : alook st.graphs g = some gr) :
    getGraphScope (setGraphScope st g s) g = s := by
  unfold getGraphScope getGraph
  rw [setGraphScope_currentScope_eq, h]
  rfl

theorem blockId_setGraphScope (st : IRState) (g : GraphId) (s : ScopePath)
    (j : GraphId) :
    (getGraph (setGraphScope st g s) j).blockId = (getGraph st j).blockId := by
  unfold getGraph
  by_cases hj : j = g
  · subst hj
    rw [setGraphScope_currentScope_eq]
    cases alook st.graphs j with
    | none => rfl
    | some gr => rfl
  · rw [setGraphScope_currentScope_ne _ _ _ _ hj]

theorem withGraphScope_eq_ok (st : IRState) (g : GraphId) (s : ScopePath)
    (act : IRState → PRes) (st' : IRState) :
    withGraphScope st g s act = .ok st' ↔
      ∃ s1, act (setGraphScope st g s) = .ok s1 ∧
        st' = setGraphScope s1 g (getGraphScope st g) := by
  unfold withGraphScope
  cases h : act (setGraphScope st g s) with
  | ok s1 =>
    constructor
    · intro he
      injection he with he
      exact ⟨s1, rfl, he.symm⟩
    · rintro ⟨s2, hs2, rfl⟩
      injection hs2 with hs2
      rw [hs2]
  | fatal e s1 =>
    constructor
    · intro he
      cases he
    · rintro ⟨s2, hs2, _⟩
      cases hs2

/-- C4 (amended): only a method call pushes a scope frame before recursing.
For a CallMethod instruction whose receiver resolves to a class type with a
resolvable method whose function has a graph body consisting of plain
instructions (no nested calls, no sub-blocks, all present in the store),
the step runs the recursion with the callee graph's current scope set to
the caller scope extended by the call's computed scope label, the recursion
stamps the callee's instructions with that pushed scope, and every
instruction the inlining adds to the call's block carries exactly that
pushed scope.  (A CallFunction instruction pushes no frame and its inlined
instructions keep the callee's scopes — see the counterexample.) -/
theorem C4_method_scope (fuel : Nat) (st : IRState) (bid : BlockId)
    (curId : NodeId) (cur0 : Node) (m sn : String) (in0 : ValueId)
    (tl : List ValueId) (qn : Option QualifiedName) (ms : List (String × FuncId))
    (f : FuncId) (cg : GraphId) (gr0 gc0 : Graph) (st' : IRState)
    (hcur : alook st.nodes curId = some cur0)
    (hkind : cur0.kind = kCallMethod)
    (hattr : cur0.attrName = some m)
    (hins : cur0.inputs = in0 :: tl)
    (hvt : valueType st in0 = IRType.classType qn ms)
    (hms : alookStr ms m = some f)
    (hsn : SetScopeGuardScopeName (fuel + 1) st curId = .ok sn)
    (hcg : (getFunc st f).graphId = some cg)
    (hgidmem : alook st.graphs ((getBlock st bid).owningGraph) = some gr0)
    (hcgmem : alook st.graphs cg = some gc0)
    (hog : (getBlock st (getGraph st cg).blockId).owningGraph = cg)
    (hbnd : ∀ p ∈ st.nodes, p.1 < st.fresh)
    (hbndB : ∀ cid ∈ (getBlock st (getGraph st cg).blockId).nodes, cid < st.fresh)
    (hpresB : ∀ cid ∈ (getBlock st (getGraph st cg).blockId).nodes,
      ∃ nd, alook st.nodes cid = some nd)
    (hplain : ∀ n ∈ (getBlock st (getGraph st cg).blockId).nodes,
      ¬ (getNode st n).kind = kCallFunction ∧
      ¬ (getNode st n).kind = kCallMethod ∧
      (getNode st n).subBlocks = [])
    (hok : functionCallSubstitutionNode (fuel + 1) st bid curId = .ok st') :
    ∀ n ∈ (getBlock st' cur0.owningBlock).nodes,
      n ∉ (getBlock st cur0.owningBlock).nodes →
      (getNode st' n).scope =
        getGraphScope st ((getBlock st bid).owningGraph) ++ [sn] := by
  have hgn : getNode st curId = cur0 := getNode_of_alook _ _ _ hcur
  have hkcf : ¬ cur0.kind = kCallFunction := by
    rw [hkind]
    decide
  rw [functionCallSubstitutionNode] at hok
  dsimp only at hok
  rw [hgn, if_neg hkcf, if_pos hkind, hattr] at hok
  simp only [hins] at hok
  rw [hvt] at hok
  dsimp only at hok
  rw [hms, hsn] at hok
  dsimp only at hok
  set gid := (getBlock st bid).owningGraph with hgiddef
  set pushed := getGraphScope st gid ++ [sn] with hpusheddef
  rw [withGraphScope_eq_ok] at hok
  obtain ⟨s1, hact, hst'⟩ := hok
  set stA0 := setGraphScope st gid pushed with hstA0
  have hfA : (getFunc stA0 f).graphId = some cg := by
    rw [hstA0, getFunc_setGraphScope]
    exact hcg
  rw [hfA] at hact
  dsimp only at hact
  rw [withGraphScope_eq_ok] at hact
  obtain ⟨s2, hact2, hs1⟩ := hact
  set stB0 := setGraphScope stA0 cg (getGraphScope stA0 gid) with hstB0
  have hbid : (getGraph stB0 cg).blockId = (getGraph st cg).blockId := by
    rw [hstB0, blockId_setGraphScope, hstA0, blockId_setGraphScope]
  rw [hbid] at hact2
  set calleeBid := (getGraph st cg).blockId with hcb
  have hpushedA : getGraphScope stA0 gid = pushed := by
    rw [hstA0]
    exact getGraphScope_set_eq st gid pushed gr0 hgidmem
  have hgc1 : ∃ gc1, alook stA0.graphs cg = some gc1 := by
    rw [hstA0]
    show ∃ gc1, alook (setGraphScope st gid pushed).graphs cg = some gc1
    rw [alook_graphs_setGraphScope]
    by_cases hcgid : cg = gid
    · rw [if_pos hcgid, hcgid, hgidmem]
      exact ⟨_, rfl⟩
    · rw [if_neg hcgid, hcgmem]
      exact ⟨_, rfl⟩
  obtain ⟨gc1, hgc1⟩ := hgc1
  have hscB : getGraphScope stB0 cg = pushed := by
    rw [hstB0, getGraphScope_set_eq stA0 cg _ gc1 hgc1, hpushedA]
  have howB : (getBlock stB0 calleeBid).owningGraph = cg := hog
  have hneB : (getGraphScope stB0 ((getBlock stB0 calleeBid).owningGraph)).isEmpty
      = false := by
    rw [howB, hscB, hpusheddef]
    exact isEmpty_append_singleton _ _
  have hpB : ∀ k ∈ (getBlock stB0 calleeBid).nodes,
      ¬ (getNode stB0 k).kind = kCallFunction ∧
      ¬ (getNode stB0 k).kind = kCallMethod ∧
      (getNode stB0 k).subBlocks = [] ∧
      k ∈ (getBlock stB0 calleeBid).nodes := by
    intro k hk
    have hk' : k ∈ (getBlock st calleeBid).nodes := hk
    obtain ⟨a, b, c⟩ := hplain k hk'
    exact ⟨a, b, c, hk⟩
  obtain ⟨stC, hloopC, cb', cg', cv', cf', cfr', ckeys, cchar, cwl⟩ :=
    loop_plain fuel calleeBid ((getBlock stB0 calleeBid).nodes) stB0 hpB hneB
  have hrec : functionCallSubstitution fuel stB0 calleeBid = .ok stC := by
    rw [functionCallSubstitution]
    exact hloopC
  rw [hrec] at hact2
  have hI : inlineCallTo stC curId cg = .ok s2 := hact2
  have hcur1e : ∃ cur1, alook stC.nodes curId = some cur1 ∧
      cur1.owningBlock = cur0.owningBlock := by
    rcases cchar curId with hcc | hcc
    · refine ⟨cur0, ?_, rfl⟩
      rw [hcc]
      exact hcur
    · refine ⟨{ cur0 with
        scope := getGraphScope stB0 ((getBlock stB0 calleeBid).owningGraph) }, ?_, rfl⟩
      rw [hcc]
      have hc0 : alook stB0.nodes curId = some cur0 := hcur
      rw [hc0]
      rfl
  obtain ⟨cur1, hcur1, hcur1ob⟩ := hcur1e
  have hbndC : ∀ p ∈ stC.nodes, p.1 < stC.fresh := by
    intro p hp
    have hm : p.1 ∈ stC.nodes.map Prod.fst := List.mem_map_of_mem _ hp
    rw [ckeys] at hm
    rcases List.mem_map.1 hm with ⟨q, hq, hq1⟩
    have hq' : q ∈ st.nodes := hq
    have hqlt : q.1 < st.fresh := hbnd q hq'
    rw [hq1] at hqlt
    rw [cfr']
    exact hqlt
  have hgC : (getGraph stC cg).blockId = calleeBid := by
    have hgg : getGraph stC cg = getGraph stB0 cg := by
      unfold getGraph
      rw [cg']
    rw [hgg, hstB0, blockId_setGraphScope, hstA0, blockId_setGraphScope, ← hcb]
  have hblkC : ∀ b, getBlock stC b = getBlock st b := by
    intro b
    unfold getBlock
    rw [cb']
    rfl
  have hbndBC : ∀ cid ∈ (getBlock stC (getGraph stC cg).blockId).nodes,
      cid < stC.fresh := by
    intro cid hcid
    rw [hgC, hblkC] at hcid
    have := hbndB cid hcid
    rw [cfr']
    exact this
  have hscC : ∀ cid ∈ (getBlock stC (getGraph stC cg).blockId).nodes,
      (getNode stC cid).scope = pushed := by
    intro cid hcid
    rw [hgC, hblkC] at hcid
    obtain ⟨nd, hnd⟩ := hpresB cid hcid
    have hndB : alook stB0.nodes cid = some nd := hnd
    have hcid' : cid ∈ (getBlock stB0 calleeBid).nodes := hcid
    unfold getNode
    rw [cwl cid hcid', hndB]
    show getGraphScope stB0 ((getBlock stB0 calleeBid).owningGraph) = pushed
    rw [howB, hscB]
  have hnew := inlineCallTo_new_scope stC curId cg cur1 s2 pushed hcur1 hbndC
    hbndBC hscC hI
  intro n hn hnold
  rw [hst', hs1] at hn
  have hnD : n ∈ (getBlock s2 cur1.owningBlock).nodes := by
    rw [hcur1ob]
    exact hn
  have hnoldC : n ∉ (getBlock stC cur1.owningBlock).nodes := by
    rw [hcur1ob, hblkC]
    exact hnold
  have hfin := hnew n hnD hnoldC
  rw [hst', hs1]
  exact hfin


/-- Concrete-success form of the CallMethod step: when the recursion-then-
inline body succeeds from the pushed-scope state, the whole step succeeds
and returns that result with both graph scopes restored. -/
theorem functionCallSubstitutionNode_cm_ok (st : IRState) (bid : BlockId)
    (curId : NodeId) (cur0 : Node) (fuel : Nat) (m sn : String) (in0 : ValueId)
    (tl : List ValueId) (qn : Option QualifiedName) (ms : List (String × FuncId))
    (f : FuncId) (cg : GraphId) (s2 : IRState)
    (hcur : alook st.nodes curId = some cur0)
    (hkind : cur0.kind = kCallMethod)
    (hattr : cur0.attrName = some m)
    (hins : cur0.inputs = in0 :: tl)
    (hvt : valueType st in0 = IRType.classType qn ms)
    (hms : alookStr ms m = some f)
    (hsn : SetScopeGuardScopeName (fuel + 1) st curId = .ok sn)
    (hcg : (getFunc st f).graphId = some cg)
    (hbindok : (functionCallSubstitution fuel
        (setGraphScope (setGraphScope st ((getBlock st bid).owningGraph)
            (getGraphScope st ((getBlock st bid).owningGraph) ++ [sn])) cg
          (getGraphScope (setGraphScope st ((getBlock st bid).owningGraph)
              (getGraphScope st ((getBlock st bid).owningGraph) ++ [sn]))
            ((getBlock st bid).owningGraph)))
        (getGraph (setGraphScope (setGraphScope st ((getBlock st bid).owningGraph)
            (getGraphScope st ((getBlock st bid).owningGraph) ++ [sn])) cg
          (getGraphScope (setGraphScope st ((getBlock st bid).owningGraph)
              (getGraphScope st ((getBlock st bid).owningGraph) ++ [sn]))
            ((getBlock st bid).owningGraph))) cg).blockId).bind
      (fun stC => inlineCallTo stC curId cg) = .ok s2) :
    functionCallSubstitutionNode (fuel + 1) st bid curId =
      .ok (setGraphScope (setGraphScope s2 cg
          (getGraphScope (setGraphScope st ((getBlock st bid).owningGraph)
              (getGraphScope st ((getBlock st bid).owningGraph) ++ [sn])) cg))
        ((getBlock st bid).owningGraph)
        (getGraphScope st ((getBlock st bid).owningGraph))) := by
  rw [functionCallSubstitutionNode_cm_eq st bid curId cur0 fuel m sn in0 tl qn
    ms f cg hcur hkind hattr hins hvt hms hsn hcg]
  rw [withGraphScope_eq_ok]
  refine ⟨setGraphScope s2 cg
    (getGraphScope (setGraphScope st ((getBlock st bid).owningGraph)
        (getGraphScope st ((getBlock st bid).owningGraph) ++ [sn])) cg), ?_, rfl⟩
  dsimp only
  rw [withGraphScope_eq_ok]
  exact ⟨s2, hbindok, rfl⟩

/-- Caller state for the C4 counterexample: the caller graph already has a
non-blank current scope (as after the top-level guard), node 1 is a
function Constant, node 2 a CallFunction on it; graph 1 is the callee. -/
def stC4 : IRState :=
  { graphs := [ (0, { blockId := 0, inputs := [21], currentScope := ["pkg.M::"] }),
                (1, { blockId := 1, inputs := [30], currentScope := [] }) ],
    blocks := [ (0, { owningGraph := 0, nodes := [1, 2], returns := [22] }),
                (1, { owningGraph := 1, nodes := [3], returns := [31] }) ],
    nodes := [ (1, { kind := "prim::Constant", inputs := [], outputs := [20],
                     attrName := none, scope := [], subBlocks := [], owningBlock := 0 }),
               (2, { kind := "prim::CallFunction", inputs := [20, 21], outputs := [22],
                     attrName := none, scope := [], subBlocks := [], owningBlock := 0 }),
               (3, { kind := "aten::relu", inputs := [30], outputs := [31],
                     attrName := none, scope := [], subBlocks := [], owningBlock := 1 }) ],
    values := [ (20, { type := IRType.functionType 0, producer := 1 }),
                (21, { type := IRType.otherType, producer := 0 }),
                (22, { type := IRType.otherType, producer := 2 }),
                (30, { type := IRType.otherType, producer := 0 }),
                (31, { type := IRType.otherType, producer := 3 }) ],
    funcs := [ (0, { qualname := ⟨["__torch__", "pkg", "plainfn"]⟩,
                     graphId := some 1 }) ],
    fresh := 50 }

/-- stC4 after the call's input 0 is detached and its Constant destroyed. -/
def stC4b : IRState :=
  { graphs := [ (0, { blockId := 0, inputs := [21], currentScope := ["pkg.M::"] }),
                (1, { blockId := 1, inputs := [30], currentScope := [] }) ],
    blocks := [ (0, { owningGraph := 0, nodes := [2], returns := [22] }),
                (1, { owningGraph := 1, nodes := [3], returns := [31] }) ],
    nodes := [ (2, { kind := "prim::CallFunction", inputs := [21], outputs := [22],
                     attrName := none, scope := [], subBlocks := [], owningBlock := 0 }),
               (3, { kind := "aten::relu", inputs := [30], outputs := [31],
                     attrName := none, scope := [], subBlocks := [], owningBlock := 1 }) ],
    values := [ (20, { type := IRType.functionType 0, producer := 1 }),
                (21, { type := IRType.otherType, producer := 0 }),
                (22, { type := IRType.otherType, producer := 2 }),
                (30, { type := IRType.otherType, producer := 0 }),
                (31, { type := IRType.otherType, producer := 3 }) ],
    funcs := [ (0, { qualname := ⟨["__torch__", "pkg", "plainfn"]⟩,
                     graphId := some 1 }) ],
    fresh := 50 }

/-- The result of the CallFunction step on stC4. -/
def res4 : IRState :=
  { graphs := [ (0, { blockId := 0, inputs := [21], currentScope := ["pkg.M::"] }),
                (1, { blockId := 1, inputs := [30], currentScope := [] }) ],
    blocks := [ (0, { owningGraph := 0, nodes := [50], returns := [51] }),
                (1, { owningGraph := 1, nodes := [3], returns := [31] }) ],
    nodes := [ (50, { kind := "aten::relu", inputs := [21], outputs := [51],
                      attrName := none, scope := [], subBlocks := [], owningBlock := 0 }),
               (3, { kind := "aten::relu", inputs := [30], outputs := [31],
                     attrName := none, scope := [], subBlocks := [], owningBlock := 1 }) ],
    values := [ (51, { type := IRType.otherType, producer := 50 }),
                (20, { type := IRType.functionType 0, producer := 1 }),
                (21, { type := IRType.otherType, producer := 0 }),
                (22, { type := IRType.otherType, producer := 2 }),
                (30, { type := IRType.otherType, producer := 0 }),
                (31, { type := IRType.otherType, producer := 3 }) ],
    funcs := [ (0, { qualname := ⟨["__torch__", "pkg", "plainfn"]⟩,
                     graphId := some 1 }) ],
    fresh := 52 }

/-- C4 counterexample: the claim says every CallFunction the pass inlines
recurses "under a newly pushed scope frame (the call's scope label)" and
that the spliced instructions carry that pushed scope.  On stC4 the
ambient scope is non-blank and the call's scope label is computable
("pkg.plainfn::"), yet the CallFunction branch pushes no frame: the
instruction spliced from the callee (node 50) carries the empty scope. -/
theorem C4_counterexample :
    functionCallSubstitutionNode 1 stC4 0 2 = .ok res4 ∧
    SetScopeGuardScopeName 1 stC4 2 = .ok "pkg.plainfn::" ∧
    getGraphScope stC4 0 = ["pkg.M::"] ∧
    50 ∈ (getBlock res4 0).nodes ∧
    (getNode res4 50).kind = "aten::relu" ∧
    (getNode res4 50).scope = [] := by
  have hrecC : functionCallSubstitution 0 stC4b 1 = .ok stC4b := by
    rw [functionCallSubstitution]
    show functionCallSubstitutionLoop 0 stC4b 1 [3] = .ok stC4b
    rw [functionCallSubstitutionLoop]
    rw [if_pos (show (getBlock stC4b 1).nodes.contains 3 = true by decide)]
    rw [plain_node_step 0 stC4b 1 3 (by decide) (by decide) (by decide)]
    rw [if_pos (show (getGraphScope stC4b ((getBlock stC4b 1).owningGraph)).isEmpty
      = true by decide)]
    show functionCallSubstitutionLoop 0 stC4b 1 [] = .ok stC4b
    rw [functionCallSubstitutionLoop]
  have heq := functionCallSubstitutionNode_cf_eq stC4 0 2
    { kind := "prim::CallFunction", inputs := [20, 21], outputs := [22],
      attrName := none, scope := [], subBlocks := [], owningBlock := 0 }
    0 20 20 [21] 0 1 (by decide) (by decide) (by decide) (by decide) (by decide)
    (by decide) (by decide) (by decide)
  have hfin : functionCallSubstitutionNode 1 stC4 0 2 = .ok res4 := by
    rw [heq]
    show (functionCallSubstitution 0 stC4b 1).bind
      (fun st3 => inlineCallTo st3 2 1) = .ok res4
    rw [hrecC]
    show inlineCallTo stC4b 2 1 = .ok res4
    decide
  exact ⟨hfin, by decide, by decide, by decide, by decide, by decide⟩

/-- The call-instruction record of the C4 witness state. -/
def nodeCallM : Node :=
  { kind := "prim::CallMethod", inputs := [40], outputs := [22],
    attrName := some "forward", scope := [], subBlocks := [], owningBlock := 0 }

/-- State for the C4 witness: node 2 calls method "forward" on the class-
typed receiver value 40; the method's graph 2 holds one plain instruction. -/
def stM : IRState :=
  { graphs := [ (0, { blockId := 0, inputs := [40], currentScope := [] }),
                (2, { blockId := 2, inputs := [60], currentScope := [] }) ],
    blocks := [ (0, { owningGraph := 0, nodes := [2], returns := [22] }),
                (2, { owningGraph := 2, nodes := [4], returns := [61] }) ],
    nodes := [ (2, nodeCallM),
               (4, { kind := "aten::relu", inputs := [60], outputs := [61],
                     attrName := none, scope := [], subBlocks := [], owningBlock := 2 }) ],
    values := [ (40, { type := IRType.classType (some ⟨["__torch__", "pkg", "M"]⟩)
                         [("forward", 1)], producer := 9 }),
                (22, { type := IRType.otherType, producer := 2 }),
                (60, { type := IRType.classType (some ⟨["__torch__", "pkg", "M"]⟩)
                         [("forward", 1)], producer := 0 }),
                (61, { type := IRType.otherType, producer := 4 }) ],
    funcs := [ (1, { qualname := ⟨["__torch__", "pkg", "M", "forward"]⟩,
                     graphId := some 2 }) ],
    fresh := 70 }

/-- stM with the pushed scope "pkg.M::" installed on both graphs (the state
the CallMethod branch recurses from). -/
def stB0l : IRState :=
  { graphs := [ (0, { blockId := 0, inputs := [40], currentScope := ["pkg.M::"] }),
                (2, { blockId := 2, inputs := [60], currentScope := ["pkg.M::"] }) ],
    blocks := stM.blocks, nodes := stM.nodes, values := stM.values,
    funcs := stM.funcs, fresh := stM.fresh }

/-- stB0l after the recursion stamped the callee's instruction. -/
def stCl : IRState :=
  { graphs := stB0l.graphs,
    blocks := stB0l.blocks,
    nodes := [ (2, nodeCallM),
               (4, { kind := "aten::relu", inputs := [60], outputs := [61],
                     attrName := none, scope := ["pkg.M::"], subBlocks := [],
                     owningBlock := 2 }) ],
    values := stB0l.values, funcs := stB0l.funcs, fresh := stB0l.fresh }

/-- stCl after the callee is inlined at the call site. -/
def stDl : IRState :=
  { graphs := [ (0, { blockId := 0, inputs := [40], currentScope := ["pkg.M::"] }),
                (2, { blockId := 2, inputs := [60], currentScope := ["pkg.M::"] }) ],
    blocks := [ (0, { owningGraph := 0, nodes := [70], returns := [71] }),
                (2, { owningGraph := 2, nodes := [4], returns := [61] }) ],
    nodes := [ (70, { kind := "aten::relu", inputs := [40], outputs := [71],
                      attrName := none, scope := ["pkg.M::"], subBlocks := [],
                      owningBlock := 0 }),
               (4, { kind := "aten::relu", inputs := [60], outputs := [61],
                     attrName := none, scope := ["pkg.M::"], subBlocks := [],
                     owningBlock := 2 }) ],
    values := [ (71, { type := IRType.otherType, producer := 70 }),
                (40, { type := IRType.classType (some ⟨["__torch__", "pkg", "M"]⟩)
                         [("forward", 1)], producer := 9 }),
                (22, { type := IRType.otherType, producer := 2 }),
                (60, { type := IRType.classType (some ⟨["__torch__", "pkg", "M"]⟩)
                         [("forward", 1)], producer := 0 }),
                (61, { type := IRType.otherType, producer := 4 }) ],
    funcs := [ (1, { qualname := ⟨["__torch__", "pkg", "M", "forward"]⟩,
                     graphId := some 2 }) ],
    fresh := 72 }

/-- C4 witness: the amended theorem at stM.  The step succeeds and the
instruction spliced into the caller block (node 70) carries exactly the
pushed scope "pkg.M::". -/
theorem C4_witness :
    ∃ st', functionCallSubstitutionNode 1 stM 0 2 = .ok st' ∧
      70 ∈ (getBlock st' 0).nodes ∧
      (getNode st' 70).scope = getGraphScope stM 0 ++ ["pkg.M::"] := by
  have hrec : functionCallSubstitution 0 stB0l 2 = .ok stCl := by
    rw [functionCallSubstitution]
    show functionCallSubstitutionLoop 0 stB0l 2 [4] = .ok stCl
    rw [functionCallSubstitutionLoop]
    rw [if_pos (show (getBlock stB0l 2).nodes.contains 4 = true by decide)]
    rw [plain_node_step 0 stB0l 2 4 (by decide) (by decide) (by decide)]
    rw [if_neg (show ¬ (getGraphScope stB0l
      ((getBlock stB0l 2).owningGraph)).isEmpty = true by decide)]
    show functionCallSubstitutionLoop 0
      (setNodeScope stB0l 4 (getGraphScope stB0l ((getBlock stB0l 2).owningGraph)))
      2 [] = .ok stCl
    rw [functionCallSubstitutionLoop]
    decide
  have hbind : (functionCallSubstitution 0 stB0l 2).bind
      (fun stC => inlineCallTo stC 2 2) = .ok stDl := by
    rw [hrec]
    show inlineCallTo stCl 2 2 = .ok stDl
    decide
  have hok := functionCallSubstitutionNode_cm_ok stM 0 2 nodeCallM 0 "forward"
    "pkg.M::" 40 [] (some ⟨["__torch__", "pkg", "M"]⟩) [("forward", 1)] 1 2 stDl
    (by decide) (by decide) (by decide) (by decide) (by decide) (by decide)
    (by decide) (by decide) hbind
  refine ⟨_, hok, by decide, ?_⟩
  have hlist : (getBlock stM (getGraph stM 2).blockId).nodes = [4] := by decide
  have hconc := C4_method_scope 0 stM 0 2 nodeCallM "forward" "pkg.M::" 40 []
    (some ⟨["__torch__", "pkg", "M"]⟩) [("forward", 1)] 1 2
    { blockId := 0, inputs := [40], currentScope := [] }
    { blockId := 2, inputs := [60], currentScope := [] } _
    (by decide) (by decide) (by decide) (by decide) (by decide) (by decide)
    (by decide) (by decide) (by decide) (by decide) (by decide) (by decide)
    (by decide)
    (by intro cid hcid
        rw [hlist] at hcid
        have hc4 : cid = 4 := by simpa using hcid
        subst hc4
        exact ⟨_, rfl⟩)
    (by decide) hok
  exact hconc 70 (by decide) (by decide)
